import Mathlib

/-! # go-awscli: ARN normalisation

A shallow embedding of `src/main.go`: the service classifier
(`ServiceNameFromARN`), the identifier shortener (`ShortArn`), the per-service
resource handlers and their dispatcher (`ConvertArnToSingleResource`), and the
two loops of `main`: the pagination loop of a region and the loop over the
regions.

Go strings are modelled as lists of characters.  The only separators and
patterns the program uses (`:`, `/`, `arn:aws:`) are ASCII, so cutting a string
at them gives the same pieces whether it is read byte by byte or character by
character.  A `*string` argument is modelled by the string it points to, and a
`*string` field of a record by an `Option`: `none` is the nil pointer.

A Go run-time panic (the only way these functions can fail: none of them has an
error result) is modelled by `Except.error` carrying the kind of panic.

The AWS client is a parameter: a call of `GetResources` is a function of the
state of the service and of the request, returning the pair `out, err` and the
next state.  The `for` loop of a region need not end, so it is run with a bound
on its iterations, and `none` says that the bound was reached.
-/

namespace GoAwscli

/-- A Go string. -/
abbrev Str := List Char

/-- The run-time panics the embedded code can raise. -/
inductive Panic where
  /-- `s[5:]` on a slice shorter than 5: "slice bounds out of range". -/
  | sliceBoundsOutOfRange
  /-- `s[i]` with `i` not below `len(s)`: "index out of range". -/
  | indexOutOfRange
  /-- `*p` or `p.f` with `p` nil: "nil pointer dereference". -/
  | nilPointerDereference
  deriving DecidableEq, Repr

/-! ## The pieces of Go's `strings` package the program calls -/

/-- `strings.Split(s, sep)` for a one-character separator: the pieces of `s`
between the occurrences of `sep`, one more piece than there are occurrences
(so `[""]` for the empty string). -/
def Split : Str → Char → List Str
  | [], _ => [[]]
  | c :: cs, sep =>
    if c = sep then [] :: Split cs sep
    else
      match Split cs sep with
      | [] => [[c]]
      | seg :: segs => (c :: seg) :: segs

/-- `strings.Join(elems, sep)`. -/
def Join : List Str → Str → Str
  | [], _ => []
  | [a], _ => a
  | a :: b :: rest, sep => a ++ sep ++ Join (b :: rest) sep

/-- The scan of `strings.Replace(s, old, new, -1)` for a non-empty `old`, left
to right: `skip` counts the characters of a match of `old` still to be passed
over; with none left, a match of `old` at the current position is replaced by
`new`, and any other character is copied. -/
def replaceScan (old new : Str) : Nat → Str → Str
  | _, [] => []
  | skip + 1, _ :: cs => replaceScan old new skip cs
  | 0, c :: cs =>
    if old.isPrefixOf (c :: cs) then new ++ replaceScan old new (old.length - 1) cs
    else c :: replaceScan old new 0 cs

/-- `strings.Replace(s, old, new, -1)` for a non-empty `old`: every
non-overlapping occurrence of `old`, leftmost first, is replaced by `new`. -/
def Replace (s old new : Str) : Str :=
  replaceScan old new 0 s

/-- The index expression `xs[i]` of Go, which panics when `i` is out of range. -/
def index (xs : List Str) (i : Nat) : Except Panic Str :=
  match xs.get? i with
  | some x => .ok x
  | none => .error .indexOutOfRange

/-- The slice expression `xs[n:]` of Go, which panics when `n > len(xs)`. -/
def sliceFrom (xs : List Str) (n : Nat) : Except Panic (List Str) :=
  if n ≤ xs.length then .ok (xs.drop n) else .error .sliceBoundsOutOfRange

/-! ## The program -/

/-- `SingleResource` of `main.go`: six `*string` fields. -/
structure SingleResource where
  Region : Option Str
  Service : Option Str
  Product : Option Str
  Details : Option Str
  ID : Option Str
  ARN : Option Str
  deriving DecidableEq, Repr

/-- The literal `"arn:aws:"`. -/
def arnAws : Str := "arn:aws:".toList

/-- `ServiceNameFromARN`: delete `"arn:aws:"` from the ARN, split at `:` and
return element 0. -/
def ServiceNameFromARN (arn : Str) : Except Panic Str :=
  let shortArn := Replace arn arnAws []
  let sliced := Split shortArn ':'
  index sliced 0

/-- `ShortArn`: split at `:`, drop the first five pieces, join with `/`. -/
def ShortArn (arn : Str) : Except Panic Str := do
  let slicedArn := Split arn ':'
  let shortArn ← sliceFrom slicedArn 5
  pure (Join shortArn ['/'])

/-- `(*awsGeneric).ConverToResource`. -/
def awsGeneric.ConverToResource (shortArn svc rgn : Str) : Except Panic SingleResource :=
  pure { ARN := some shortArn, Region := some rgn, Service := some svc,
         ID := some shortArn, Product := none, Details := none }

/-- `(*awsEC2).ConvertToResource`. -/
def awsEC2.ConvertToResource (shortArn svc rgn : Str) : Except Panic SingleResource := do
  let s := Split shortArn '/'
  let s0 ← index s 0
  let s1 ← index s 1
  pure { ARN := some shortArn, Region := some rgn, Service := some svc,
         Product := some s0, ID := some s1, Details := none }

/-- `(*awsECS).ConvertToResource`. -/
def awsECS.ConvertToResource (shortArn svc rgn : Str) : Except Panic SingleResource := do
  let s := Split shortArn '/'
  let s0 ← index s 0
  let s1 ← index s 1
  pure { ARN := some shortArn, Region := some rgn, Service := some svc,
         Product := some s0, ID := some s1, Details := none }

/-- `ConvertArnToSingleResource`: shorten the ARN, then dispatch on the service
name. -/
def ConvertArnToSingleResource (arn svc rgn : Str) : Except Panic SingleResource := do
  let shortArn ← ShortArn arn
  if svc = "ec2".toList then
    awsEC2.ConvertToResource shortArn svc rgn
  else if svc = "ecs".toList then
    awsECS.ConvertToResource shortArn svc rgn
  else
    awsGeneric.ConverToResource shortArn svc rgn

/-! ## The tag-search API and the loops of `main` -/

/-- `resourcegroupstaggingapi.GetResourcesInput`, with the two fields `main` sets
(`aws.Int64(50)` is a non-nil pointer to 50). -/
structure GetResourcesInput where
  ResourcesPerPage : Option Int
  PaginationToken : Option Str
  deriving DecidableEq, Repr

/-- `resourcegroupstaggingapi.ResourceTagMapping`, with the field `main` reads. -/
structure ResourceTagMapping where
  ResourceARN : Option Str
  deriving DecidableEq, Repr

/-- `resourcegroupstaggingapi.GetResourcesOutput`, with the two fields `main`
reads: a slice of pointers to mappings and a `*string` cursor. -/
structure GetResourcesOutput where
  ResourceTagMappingList : List (Option ResourceTagMapping)
  PaginationToken : Option Str
  deriving DecidableEq, Repr

/-- A Go `error` value, as the text `fmt.Println` writes for it. -/
abbrev ApiError := Str

/-- What one call `r.GetResources(in)` returns: the pair `out, err`, either of
which can be nil. -/
abbrev CallResult := Option GetResourcesOutput × Option ApiError

/-- The client `r` of one region: a call to `GetResources` answers a request and
moves the state `σ` of the service behind it. -/
abbrev Client (σ : Type) := σ → GetResourcesInput → CallResult × σ

/-- The variables of `main` that live across iterations, with two traces added
for stating properties: the requests issued so far and the errors printed so
far. -/
structure LoopState (σ : Type) where
  /-- The state of the service behind the client. -/
  service : σ
  /-- `paginationToken`. -/
  paginationToken : Str
  /-- `resources` (the pointers in it come from `&SingleResource{...}` and are not nil). -/
  resources : List SingleResource
  /-- Trace: every `in` passed to `GetResources`, in order. -/
  requests : List GetResourcesInput
  /-- Trace: every `err` given to `fmt.Println`, in order. -/
  printed : List ApiError

/-- One occurrence of `out, err = r.GetResources(in)` followed by
`if err != nil { fmt.Println(err) }`: returns `out` and the state after it. -/
def callGetResources {σ : Type} (r : Client σ) (s : LoopState σ) (inp : GetResourcesInput) :
    Option GetResourcesOutput × LoopState σ :=
  let res := r s.service inp
  (res.1.1,
    { s with service := res.2, requests := s.requests ++ [inp],
             printed := s.printed ++ res.1.2.toList })

/-- The body of `for _, resource := range out.ResourceTagMappingList` for one
element: classify `resource.ResourceARN` and convert it, with `rgn := region`. -/
def convertResource (region : Str) (resource : Option ResourceTagMapping) :
    Except Panic SingleResource :=
  match resource with
  | none => .error .nilPointerDereference
  | some mapping =>
    match mapping.ResourceARN with
    | none => .error .nilPointerDereference
    | some arn => do
      let svc ← ServiceNameFromARN arn
      ConvertArnToSingleResource arn svc region

/-- The loop `for _, resource := range out.ResourceTagMappingList`, appending to
`resources` one record per element, in order. -/
def appendResources (region : Str) :
    List (Option ResourceTagMapping) → List SingleResource → Except Panic (List SingleResource)
  | [], resources => .ok resources
  | resource :: rest, resources => do
    let record ← convertResource region resource
    appendResources region rest (resources ++ [record])

/-- One iteration of the `for` loop of a region.  The Boolean tells whether the
`break` was taken. -/
def loopBody {σ : Type} (r : Client σ) (region : Str) (s : LoopState σ) :
    Except Panic (LoopState σ × Bool) :=
  let branch : GetResourcesInput × LoopState σ :=
    if s.paginationToken.length = 0 then
      let inp : GetResourcesInput := { ResourcesPerPage := some 50, PaginationToken := none }
      (inp, (callGetResources r s inp).2)
    else
      ({ ResourcesPerPage := some 50, PaginationToken := some s.paginationToken }, s)
  let called := callGetResources r branch.2 branch.1
  match called.1 with
  | none => .error .nilPointerDereference
  | some out => do
    let resources ← appendResources region out.ResourceTagMappingList called.2.resources
    match out.PaginationToken with
    | none => .error .nilPointerDereference
    | some token =>
      pure ({ called.2 with resources := resources, paginationToken := token },
            decide (token = []))

/-- The `for` loop of a region, run for at most `fuel` iterations: `none` when the
iterations allowed do not reach the `break`. -/
def paginationLoop {σ : Type} (r : Client σ) (region : Str) :
    Nat → LoopState σ → Option (Except Panic (LoopState σ))
  | 0, _ => none
  | fuel + 1, s =>
    match loopBody r region s with
    | .error e => some (.error e)
    | .ok (s', true) => some (.ok s')
    | .ok (s', false) => paginationLoop r region fuel s'

/-- The loop `for _, region := range TraceableRegions` over a list of regions:
each region gets its own client and starts with `paginationToken = ""`. -/
def regionsLoop {σ : Type} (clients : Str → Client σ) (fuel : Nat) :
    List Str → LoopState σ → Option (Except Panic (LoopState σ))
  | [], s => some (.ok s)
  | region :: rest, s =>
    match paginationLoop (clients region) region fuel { s with paginationToken := [] } with
    | none => none
    | some (.error e) => some (.error e)
    | some (.ok s') => regionsLoop clients fuel rest s'

/-- `TraceableRegions`. -/
def TraceableRegions : List Str := ["eu-west-1".toList]

/-- The state in which `main` starts, for a service in state `w`. -/
def initialState {σ : Type} (w : σ) : LoopState σ :=
  { service := w, paginationToken := [], resources := [], requests := [], printed := [] }

/-- `main` up to the call of `PrettyPrintResources`: the `resources` handed to it. -/
def main {σ : Type} (clients : Str → Client σ) (fuel : Nat) (w : σ) :
    Option (Except Panic (List SingleResource)) :=
  (regionsLoop clients fuel TraceableRegions (initialState w)).map
    (fun res => res.map (fun s => s.resources))

/-- A client whose answer depends on the request only. -/
def statelessClient {σ : Type} (respond : GetResourcesInput → CallResult) : Client σ :=
  fun w inp => (respond inp, w)

/-- The request `main` builds for a cursor: page size 50, and the cursor unless
it is absent. -/
def requestFor (cursor : Option Str) : GetResourcesInput :=
  { ResourcesPerPage := some 50, PaginationToken := cursor }

/-- A mocked API serves the pages `pages`, starting at `cursor`: it answers the
request for `cursor` with the first page and no error, every page but the last
carries a non-empty cursor, at which the rest is served, and the last page
carries the empty cursor. -/
def Serves (respond : GetResourcesInput → CallResult) :
    Option Str → List GetResourcesOutput → Prop
  | _, [] => False
  | cursor, [page] =>
    respond (requestFor cursor) = (some page, none) ∧ page.PaginationToken = some []
  | cursor, page :: next :: rest =>
    respond (requestFor cursor) = (some page, none) ∧
      ∃ token : Str, page.PaginationToken = some token ∧ token ≠ [] ∧
        Serves respond (some token) (next :: rest)

/-- The cursor a stored `paginationToken` stands for: none while it is empty. -/
def cursorOf (token : Str) : Option Str :=
  if token = [] then none else some token

/-- The requests one iteration issues when it starts with `token` stored: two
requests without cursor while the token is empty, one request with the token
otherwise. -/
def firstRequests (token : Str) : List GetResourcesInput :=
  if token = [] then [requestFor none, requestFor none] else [requestFor (some token)]

/-- The requests the loop issues when it starts with `token` stored and is served
`pages`: those of the first iteration, then one request for the cursor of every
page but the last. -/
def servedRequests (token : Str) (pages : List GetResourcesOutput) : List GetResourcesInput :=
  firstRequests token ++ pages.dropLast.map (fun page => requestFor page.PaginationToken)

/-- The state `s` with `resources`, `requests` and `printed` put in front of its
own. -/
def LoopState.frame {σ : Type} (resources : List SingleResource)
    (requests : List GetResourcesInput) (printed : List ApiError) (s : LoopState σ) :
    LoopState σ :=
  { s with resources := resources ++ s.resources, requests := requests ++ s.requests,
           printed := printed ++ s.printed }

/-- The Region Collector as the spec words it: the records of one region collected
on their own, from an empty sequence, together with the state the service is
left in. -/
def regionCollector {σ : Type} (r : Client σ) (region : Str) (fuel : Nat) (w : σ) :
    Option (Except Panic (List SingleResource × σ)) :=
  match paginationLoop r region fuel (initialState w) with
  | none => none
  | some (.error e) => some (.error e)
  | some (.ok s) => some (.ok (s.resources, s.service))

/-- The Collection Driver as the spec words it: run the Region Collector for each
region in sequence and concatenate the resulting sequences in region order. -/
def collectionDriver {σ : Type} (clients : Str → Client σ) (fuel : Nat) :
    List Str → σ → Option (Except Panic (List (List SingleResource) × σ))
  | [], w => some (.ok ([], w))
  | region :: rest, w =>
    match regionCollector (clients region) region fuel w with
    | none => none
    | some (.error e) => some (.error e)
    | some (.ok (records, w')) =>
      match collectionDriver clients fuel rest w' with
      | none => none
      | some (.error e) => some (.error e)
      | some (.ok (more, w'')) => some (.ok (records :: more, w''))

/-! ### Mocked APIs used as concrete inputs -/

/-- The first page of `twoPageMock`: one EC2 instance, cursor `"t1"`. -/
def firstPage : GetResourcesOutput :=
  { ResourceTagMappingList :=
      [some { ResourceARN := some "arn:aws:ec2:eu-west-1:111111111111:instance/i-0123abc".toList }],
    PaginationToken := some "t1".toList }

/-- The last page of `twoPageMock`: one S3 bucket, empty cursor. -/
def lastPage : GetResourcesOutput :=
  { ResourceTagMappingList :=
      [some { ResourceARN := some "arn:aws:s3:eu-west-1:111111111111:bucket/my-bucket".toList }],
    PaginationToken := some [] }

/-- A mocked API serving two pages: `firstPage` for a request without cursor,
`lastPage` for a request with a cursor; no call fails. -/
def twoPageMock : GetResourcesInput → CallResult := fun inp =>
  match inp.PaginationToken with
  | none => (some firstPage, none)
  | some _ => (some lastPage, none)

/-- A mocked API for an empty region: every request is answered, without error,
by a page with no items and the empty cursor. -/
def emptyRegionMock : GetResourcesInput → CallResult := fun _ =>
  (some { ResourceTagMappingList := [], PaginationToken := some [] }, none)

/-- A mocked API on which every call fails the way a call of the SDK does: `err`
is not nil and `out` is the zero value of the output struct, whose fields are
nil. -/
def failingMock : GetResourcesInput → CallResult := fun _ =>
  (some { ResourceTagMappingList := [], PaginationToken := none },
    some "RequestError: send request failed".toList)

/-- The only page of `malformedItemMock`: one EC2 identifier without `/` in its
tail, empty cursor. -/
def malformedPage : GetResourcesOutput :=
  { ResourceTagMappingList :=
      [some { ResourceARN := some "arn:aws:ec2:eu-west-1:111111111111:instance".toList }],
    PaginationToken := some [] }

/-- A mocked API serving one page, `malformedPage`, for every request; no call
fails. -/
def malformedItemMock : GetResourcesInput → CallResult := fun _ =>
  (some malformedPage, none)

/-! ## Facts about `Split` and `Join` -/

theorem Split_ne_nil (s : Str) (sep : Char) : Split s sep ≠ [] := by
  induction s with
  | nil => simp [Split]
  | cons c cs ih =>
    unfold Split
    split
    · simp
    · cases h : Split cs sep with
      | nil => exact absurd h ih
      | cons seg segs => simp

theorem Split_cons_ne (c : Char) (cs : Str) (sep : Char) (h : c ≠ sep) :
    Split (c :: cs) sep =
      ((c :: (Split cs sep).headD []) :: (Split cs sep).tail) := by
  conv_lhs => unfold Split
  rw [if_neg h]
  cases hs : Split cs sep with
  | nil => exact absurd hs (Split_ne_nil cs sep)
  | cons seg segs => simp

theorem Split_cons_eq (cs : Str) (sep : Char) :
    Split (sep :: cs) sep = [] :: Split cs sep := by
  conv_lhs => unfold Split
  simp

theorem Split_of_not_mem (s : Str) (sep : Char) (h : sep ∉ s) : Split s sep = [s] := by
  induction s with
  | nil => simp [Split]
  | cons c cs ih =>
    have hc : c ≠ sep := fun e => h (by simp [e])
    have hcs : sep ∉ cs := fun e => h (by simp [e])
    rw [Split_cons_ne c cs sep hc, ih hcs]
    simp

theorem Split_append_sep (s t : Str) (sep : Char) (h : sep ∉ s) :
    Split (s ++ sep :: t) sep = s :: Split t sep := by
  induction s with
  | nil => simpa using Split_cons_eq t sep
  | cons c cs ih =>
    have hc : c ≠ sep := fun e => h (by simp [e])
    have hcs : sep ∉ cs := fun e => h (by simp [e])
    rw [List.cons_append, Split_cons_ne c _ sep hc, ih hcs]
    simp

theorem Split_Join (segs : List Str) (sep : Char) (hne : segs ≠ [])
    (h : ∀ s ∈ segs, sep ∉ s) : Split (Join segs [sep]) sep = segs := by
  induction segs with
  | nil => exact absurd rfl hne
  | cons a rest ih =>
    cases rest with
    | nil => simpa [Join] using Split_of_not_mem a sep (h a (by simp))
    | cons b rest =>
      have ha : sep ∉ a := h a (by simp)
      have := ih (by simp) (fun s hs => h s (by simp [hs]))
      simp only [Join, List.append_assoc, List.singleton_append]
      rw [Split_append_sep a _ sep ha, this]

theorem index_Split_zero (s : Str) (sep : Char) :
    index (Split s sep) 0 = .ok ((Split s sep).headD []) := by
  cases h : Split s sep with
  | nil => exact absurd h (Split_ne_nil s sep)
  | cons seg segs => simp [index]

theorem ShortArn_of_segments (arn : Str) (h : 5 ≤ (Split arn ':').length) :
    ShortArn arn = .ok (Join ((Split arn ':').drop 5) ['/']) := by
  simp [ShortArn, sliceFrom, h, bind, Except.bind, pure, Except.pure]

theorem ShortArn_of_few_segments (arn : Str) (h : (Split arn ':').length < 5) :
    ShortArn arn = .error .sliceBoundsOutOfRange := by
  have h' : ¬ 5 ≤ (Split arn ':').length := by omega
  simp [ShortArn, sliceFrom, h', bind, Except.bind]

/-! ## C1: what `ShortArn` returns -/

/-- C1. An identifier made of `N ≥ 6` colon-free segments joined with `:` is
shortened by `ShortArn` to its segments 6..N joined with `/`; when there are
exactly six segments the result is the sixth segment unchanged. -/
theorem ShortArn_joins_tail (segs : List Str) (hlen : 6 ≤ segs.length)
    (hcolon : ∀ s ∈ segs, ':' ∉ s) :
    ShortArn (Join segs [':']) = .ok (Join (segs.drop 5) ['/']) ∧
    (∀ a b c d e rest, segs = [a, b, c, d, e, rest] →
      ShortArn (Join segs [':']) = .ok rest) := by
  have hne : segs ≠ [] := by
    intro h; simp [h] at hlen
  have hsplit := Split_Join segs ':' hne hcolon
  have hmain : ShortArn (Join segs [':']) = .ok (Join (segs.drop 5) ['/']) := by
    rw [ShortArn_of_segments _ (by rw [hsplit]; omega), hsplit]
  refine ⟨hmain, ?_⟩
  intro a b c d e rest hs
  rw [hmain, hs]
  simp [Join]

theorem ShortArn_joins_tail_witness :
    ShortArn "arn:aws:ecs:eu-west-1:111111111111:task-definition/web:3".toList
        = .ok "task-definition/web/3".toList ∧
      ShortArn "arn:aws:ec2:eu-west-1:111111111111:instance/i-0123abc".toList
        = .ok "instance/i-0123abc".toList :=
  ⟨(ShortArn_joins_tail
      ["arn".toList, "aws".toList, "ecs".toList, "eu-west-1".toList, "111111111111".toList,
        "task-definition/web".toList, "3".toList] (by decide) (by decide)).1,
   (ShortArn_joins_tail
      ["arn".toList, "aws".toList, "ec2".toList, "eu-west-1".toList, "111111111111".toList,
        "instance/i-0123abc".toList] (by decide) (by decide)).2 _ _ _ _ _ _ rfl⟩

theorem Join_cons_head (c : Char) (seg : Str) (segs : List Str) (sep : Str) :
    Join ((c :: seg) :: segs) sep = c :: Join (seg :: segs) sep := by
  cases segs <;> simp [Join]

/-- Every string is the `sep`-join of its `Split` pieces. -/
theorem Join_Split (s : Str) (sep : Char) : Join (Split s sep) [sep] = s := by
  induction s with
  | nil => simp [Split, Join]
  | cons c cs ih =>
    by_cases hc : c = sep
    · subst hc
      rw [Split_cons_eq]
      cases hs : Split cs c with
      | nil => exact absurd hs (Split_ne_nil cs c)
      | cons seg segs =>
        rw [hs] at ih
        simp [Join, ih]
    · rw [Split_cons_ne c cs sep hc]
      cases hs : Split cs sep with
      | nil => exact absurd hs (Split_ne_nil cs sep)
      | cons seg segs =>
        rw [hs] at ih
        simp [Join_cons_head, ih]

/-- No `Split` piece contains the separator. -/
theorem not_mem_of_mem_Split (s : Str) (sep : Char) :
    ∀ seg ∈ Split s sep, sep ∉ seg := by
  induction s with
  | nil => simp [Split]
  | cons c cs ih =>
    by_cases hc : c = sep
    · subst hc
      rw [Split_cons_eq]
      intro seg hseg
      rcases List.mem_cons.mp hseg with h | h
      · simp [h]
      · exact ih seg h
    · rw [Split_cons_ne c cs sep hc]
      cases hs : Split cs sep with
      | nil => exact absurd hs (Split_ne_nil cs sep)
      | cons seg0 segs =>
        rw [hs] at ih
        intro seg hseg
        simp only [List.headD_cons, List.tail_cons, List.mem_cons] at hseg
        rcases hseg with h | h
        · subst h
          have h0 := ih seg0 (by simp)
          intro hmem
          rcases List.mem_cons.mp hmem with h1 | h1
          · exact hc h1.symm
          · exact h0 h1
        · exact ih seg (by simp [h])

/-! ## Facts about `Replace` -/

theorem Replace_arnAws_append (rest : Str) :
    Replace (arnAws ++ rest) arnAws [] = Replace rest arnAws [] := by
  simp [Replace, replaceScan, arnAws]

theorem ServiceNameFromARN_eq (arn : Str) :
    ServiceNameFromARN arn = .ok ((Split (Replace arn arnAws []) ':').headD []) := by
  simp [ServiceNameFromARN, index_Split_zero]

/-- Deleting `arn:aws:` leaves the first `:`-piece alone when no occurrence of
`arn:aws:` begins inside that piece. -/
theorem head_Split_Replace (rest : Str)
    (hno : ∀ p q : Str, ':' ∉ p → rest ≠ p ++ arnAws ++ q) :
    (Split (Replace rest arnAws []) ':').headD [] = (Split rest ':').headD [] := by
  induction rest with
  | nil => simp [Replace, replaceScan]
  | cons c cs ih =>
    have hpre : arnAws.isPrefixOf (c :: cs) = false := by
      cases hp : arnAws.isPrefixOf (c :: cs) with
      | false => rfl
      | true =>
        obtain ⟨q, hq⟩ := List.isPrefixOf_iff_prefix.mp hp
        exact absurd (by simpa using hq.symm) (hno [] q (by simp))
    have hstep : Replace (c :: cs) arnAws [] = c :: Replace cs arnAws [] := by
      simp [Replace, replaceScan, hpre]
    rw [hstep]
    by_cases hc : c = ':'
    · subst hc
      simp [Split_cons_eq]
    · have hcs : ∀ p q : Str, ':' ∉ p → cs ≠ p ++ arnAws ++ q := by
        intro p q hp hEq
        refine hno (c :: p) q ?_ (by simp [hEq])
        intro hmem
        rcases List.mem_cons.mp hmem with h1 | h1
        · exact hc h1.symm
        · exact hp h1
      rw [Split_cons_ne c _ ':' hc, Split_cons_ne c cs ':' hc, List.headD_cons, List.headD_cons,
        ih hcs]

theorem ServiceNameFromARN_prefixed (rest seg : Str)
    (hseg : (Split rest ':').head? = some seg)
    (hno : ∀ p q : Str, ':' ∉ p → rest ≠ p ++ arnAws ++ q) :
    ServiceNameFromARN (arnAws ++ rest) = .ok seg := by
  rw [ServiceNameFromARN_eq, Replace_arnAws_append, head_Split_Replace rest hno]
  cases hs : Split rest ':' with
  | nil => exact absurd hs (Split_ne_nil rest ':')
  | cons seg0 segs =>
    rw [hs] at hseg
    simp only [List.head?_cons, Option.some.injEq] at hseg
    simp [hseg]

/-! ## C2: the service classifier on identifiers with the prefix -/

/-- C2, counterexample. `"arn:aws:arn:aws:ec2:x"` begins with `"arn:aws:"` and the
text after that prefix is `"arn:aws:ec2:x"`, whose first colon-delimited segment
is `"arn"`; `ServiceNameFromARN` deletes both occurrences of `"arn:aws:"` and
returns `"ec2"`. -/
theorem ServiceNameFromARN_repeated_prefix_counterexample :
    arnAws ++ "arn:aws:ec2:x".toList = "arn:aws:arn:aws:ec2:x".toList ∧
    (Split "arn:aws:ec2:x".toList ':').head? = some "arn".toList ∧
    ServiceNameFromARN "arn:aws:arn:aws:ec2:x".toList = .ok "ec2".toList ∧
    ServiceNameFromARN "arn:aws:arn:aws:ec2:x".toList ≠ .ok "arn".toList :=
  ⟨rfl, rfl, rfl, fun h =>
    have h' : (Except.ok "ec2".toList : Except Panic Str) = .ok "arn".toList := h
    absurd (Except.ok.inj h') (by decide)⟩

/-- C2, amended. For an identifier `"arn:aws:" ++ rest` in which no further
occurrence of `"arn:aws:"` begins inside the first colon-delimited segment of
`rest`, `ServiceNameFromARN` returns that first segment of `rest`. -/
theorem ServiceNameFromARN_first_segment (rest seg : Str)
    (hseg : (Split rest ':').head? = some seg)
    (hno : ∀ p q : Str, ':' ∉ p → rest ≠ p ++ arnAws ++ q) :
    ServiceNameFromARN (arnAws ++ rest) = .ok seg :=
  ServiceNameFromARN_prefixed rest seg hseg hno

theorem ServiceNameFromARN_first_segment_witness :
    ServiceNameFromARN "arn:aws:ec2:eu-west-1:111111111111:instance/i-0123abc".toList
      = .ok "ec2".toList :=
  ServiceNameFromARN_first_segment "ec2:eu-west-1:111111111111:instance/i-0123abc".toList
    "ec2".toList rfl (by
      intro p q hp h
      rcases p with _ | ⟨a, _ | ⟨b, _ | ⟨c, _ | ⟨d, p⟩⟩⟩⟩ <;>
        simp [arnAws] at h hp
      exact hp.2.2.2.1 h.2.2.2.1)

/-! ## C8: the service classifier has no failure path -/

/-- C8, counterexample. `"ec2:eu-west-1:1:vpc/v"` does not begin with
`"arn:aws:"`, and nothing follows the prefix in `"arn:aws:"`; on both
`ServiceNameFromARN` returns a value (`"ec2"` and the empty string) instead of
failing. -/
theorem ServiceNameFromARN_no_failure_counterexample :
    ¬ arnAws <+: "ec2:eu-west-1:1:vpc/v".toList ∧
    ServiceNameFromARN "ec2:eu-west-1:1:vpc/v".toList = .ok "ec2".toList ∧
    ServiceNameFromARN "arn:aws:".toList = .ok [] :=
  ⟨by decide, rfl, rfl⟩

/-- C8, amended. `ServiceNameFromARN` fails on no identifier: with or without
the prefix `"arn:aws:"`, and whether or not a segment follows it, the result is
a string, the first colon-delimited piece (possibly empty) of the identifier
with every occurrence of `"arn:aws:"` deleted. -/
theorem ServiceNameFromARN_never_fails (arn : Str) :
    ∃ svc : Str, ServiceNameFromARN arn = .ok svc ∧
      (Split (Replace arn arnAws []) ':').head? = some svc := by
  refine ⟨(Split (Replace arn arnAws []) ':').headD [], ServiceNameFromARN_eq arn, ?_⟩
  cases hs : Split (Replace arn arnAws []) ':' with
  | nil => exact absurd hs (Split_ne_nil _ ':')
  | cons seg segs => simp

/-! ## Facts about the handlers -/

theorem awsEC2_eq_awsECS (shortArn svc rgn : Str) :
    awsEC2.ConvertToResource shortArn svc rgn = awsECS.ConvertToResource shortArn svc rgn := rfl

theorem ConvertArnToSingleResource_generic (arn svc rgn short : Str)
    (h2 : svc ≠ "ec2".toList) (hs : svc ≠ "ecs".toList) (hshort : ShortArn arn = .ok short) :
    ConvertArnToSingleResource arn svc rgn =
      .ok { Region := some rgn, Service := some svc, Product := none, Details := none,
            ID := some short, ARN := some short } := by
  simp only [ConvertArnToSingleResource, hshort, bind, Except.bind]
  rw [if_neg h2, if_neg hs]
  rfl

theorem ConvertArnToSingleResource_slash (arn svc rgn short : Str)
    (hsvc : svc = "ec2".toList ∨ svc = "ecs".toList) (hshort : ShortArn arn = .ok short) :
    ConvertArnToSingleResource arn svc rgn = awsEC2.ConvertToResource short svc rgn := by
  rcases hsvc with h | h
  · simp [ConvertArnToSingleResource, hshort, h, bind, Except.bind]
  · subst h
    simp [ConvertArnToSingleResource, hshort, bind, Except.bind, awsEC2_eq_awsECS]

theorem ConvertArnToSingleResource_error (arn svc rgn : Str) (e : Panic)
    (hshort : ShortArn arn = .error e) :
    ConvertArnToSingleResource arn svc rgn = .error e := by
  simp [ConvertArnToSingleResource, hshort, bind, Except.bind]

theorem awsEC2_of_two_pieces (short svc rgn a b : Str) (rest : List Str)
    (h : Split short '/' = a :: b :: rest) :
    awsEC2.ConvertToResource short svc rgn =
      .ok { Region := some rgn, Service := some svc, Product := some a, Details := none,
            ID := some b, ARN := some short } := by
  simp [awsEC2.ConvertToResource, h, index, bind, Except.bind, pure, Except.pure]

theorem awsEC2_of_one_piece (short svc rgn a : Str) (h : Split short '/' = [a]) :
    awsEC2.ConvertToResource short svc rgn = .error .indexOutOfRange := by
  simp [awsEC2.ConvertToResource, h, index, bind, Except.bind]

theorem headD_Split (s : Str) (sep : Char) :
    (Split s sep).headD [] = s.takeWhile (· ≠ sep) := by
  induction s with
  | nil => simp [Split]
  | cons c cs ih =>
    by_cases hc : c = sep
    · subst hc
      simp [Split_cons_eq]
    · rw [Split_cons_ne c cs sep hc, List.headD_cons, ih]
      simp [List.takeWhile_cons, hc]

theorem length_Split (s : Str) (sep : Char) : (Split s sep).length = s.count sep + 1 := by
  induction s with
  | nil => simp [Split]
  | cons c cs ih =>
    by_cases hc : c = sep
    · subst hc
      simp [Split_cons_eq, ih]
    · rw [Split_cons_ne c cs sep hc]
      have hpos : 0 < (Split cs sep).length := List.length_pos.mpr (Split_ne_nil cs sep)
      simp only [List.length_cons, List.length_tail, List.count_cons, beq_iff_eq, hc, if_false]
      omega

theorem not_mem_Join (segs : List Str) (sep : Str) (c : Char) (hsegs : ∀ s ∈ segs, c ∉ s)
    (hsep : c ∉ sep) : c ∉ Join segs sep := by
  induction segs with
  | nil => simp [Join]
  | cons a rest ih =>
    cases rest with
    | nil => simpa [Join] using hsegs a (by simp)
    | cons b rest =>
      have ha := hsegs a (by simp)
      have hrest := ih (fun s hs => hsegs s (by simp [hs]))
      simp only [Join, List.append_assoc, List.mem_append, not_or]
      exact ⟨ha, hsep, hrest⟩

/-! ## C3: the slash-decomposition rule -/

/-- C3, counterexample. For `"arn:aws:ecs:eu-west-1:111111111111:service/web/api"`
(six segments, shortened identifier `"service/web/api"`) and service `"ecs"` the
record's ID is `"web"`, not the whole text `"web/api"` after the first `/`. -/
theorem ConvertArnToSingleResource_id_counterexample :
    (Split "arn:aws:ecs:eu-west-1:111111111111:service/web/api".toList ':').length = 6 ∧
    ShortArn "arn:aws:ecs:eu-west-1:111111111111:service/web/api".toList
      = .ok ("service".toList ++ '/' :: "web/api".toList) ∧
    ConvertArnToSingleResource "arn:aws:ecs:eu-west-1:111111111111:service/web/api".toList
        "ecs".toList "eu-west-1".toList
      = .ok { Region := some "eu-west-1".toList, Service := some "ecs".toList,
              Product := some "service".toList, Details := none,
              ID := some "web".toList, ARN := some "service/web/api".toList } ∧
    "web".toList ≠ "web/api".toList :=
  ⟨rfl, rfl, rfl, by decide⟩

/-- C3, amended. For service `"ec2"` or `"ecs"` and an ARN whose shortened
identifier is `p ++ "/" ++ t` with no `/` in `p` (such an ARN has at least 6
colon-delimited segments), `ConvertArnToSingleResource` yields a record whose Product is `p`,
the text before the first `/`, and whose ID is the text between that first `/`
and the next `/` of `t`; the ID is all of `t` when `t` contains no `/`. -/
theorem ConvertArnToSingleResource_slash_rule (arn svc rgn p t : Str)
    (hsvc : svc = "ec2".toList ∨ svc = "ecs".toList)
    (hshort : ShortArn arn = .ok (p ++ '/' :: t)) (hp : '/' ∉ p) :
    ConvertArnToSingleResource arn svc rgn =
        .ok { Region := some rgn, Service := some svc, Product := some p, Details := none,
              ID := some (t.takeWhile (· ≠ '/')), ARN := some (p ++ '/' :: t) } ∧
      ('/' ∉ t → t.takeWhile (· ≠ '/') = t) := by
  constructor
  · rw [ConvertArnToSingleResource_slash arn svc rgn _ hsvc hshort]
    have hsplit : Split (p ++ '/' :: t) '/' =
        p :: (Split t '/').headD [] :: (Split t '/').tail := by
      rw [Split_append_sep p t '/' hp]
      cases hs : Split t '/' with
      | nil => exact absurd hs (Split_ne_nil t '/')
      | cons a rest => simp
    rw [awsEC2_of_two_pieces _ svc rgn _ _ _ hsplit, headD_Split]
  · intro ht
    rw [← headD_Split, Split_of_not_mem t '/' ht]
    rfl

theorem ConvertArnToSingleResource_slash_rule_witness :
    ConvertArnToSingleResource "arn:aws:ec2:eu-west-1:111111111111:instance/i-0123abc".toList
        "ec2".toList "eu-west-1".toList
      = .ok { Region := some "eu-west-1".toList, Service := some "ec2".toList,
              Product := some "instance".toList, Details := none,
              ID := some "i-0123abc".toList, ARN := some "instance/i-0123abc".toList } :=
  (ConvertArnToSingleResource_slash_rule
    "arn:aws:ec2:eu-west-1:111111111111:instance/i-0123abc".toList "ec2".toList
    "eu-west-1".toList "instance".toList "i-0123abc".toList (Or.inl rfl) rfl
    (by decide)).1

/-! ## C4: the generic rule -/

/-- C4. For a service name other than `"ec2"` and `"ecs"` and an ARN with at
least 6 colon-delimited segments, `ConvertArnToSingleResource` succeeds: there
is a shortened identifier `short = ShortArn(arn)`, the join with `/` of the
segments from the sixth on, and the record has no Product, ID `short`, and the
Service and Region that were passed in. -/
theorem ConvertArnToSingleResource_generic_rule (arn svc rgn : Str)
    (h2 : svc ≠ "ec2".toList) (hs : svc ≠ "ecs".toList)
    (hlen : 6 ≤ (Split arn ':').length) :
    ∃ (short : Str) (r : SingleResource),
      ShortArn arn = .ok short ∧ short = Join ((Split arn ':').drop 5) ['/'] ∧
      ConvertArnToSingleResource arn svc rgn = .ok r ∧
      r.Product = none ∧ r.ID = some short ∧ r.Service = some svc ∧ r.Region = some rgn := by
  have hshort := ShortArn_of_segments arn (by omega)
  exact ⟨_, _, hshort, rfl, ConvertArnToSingleResource_generic arn svc rgn _ h2 hs hshort,
    rfl, rfl, rfl, rfl⟩

theorem ConvertArnToSingleResource_generic_rule_witness :
    ∃ (short : Str) (r : SingleResource),
      ShortArn "arn:aws:s3:eu-west-1:111111111111:bucket/my-bucket".toList = .ok short ∧
      short = "bucket/my-bucket".toList ∧
      ConvertArnToSingleResource "arn:aws:s3:eu-west-1:111111111111:bucket/my-bucket".toList
        "s3".toList "eu-west-1".toList = .ok r ∧
      r.Product = none ∧ r.ID = some short ∧ r.Service = some "s3".toList ∧
      r.Region = some "eu-west-1".toList :=
  ConvertArnToSingleResource_generic_rule
    "arn:aws:s3:eu-west-1:111111111111:bucket/my-bucket".toList "s3".toList "eu-west-1".toList
    (by decide) (by decide) (by decide)

/-! ## C6: a shortened identifier without `/` under the slash rule -/

/-- C6, counterexample. On `"arn:aws:ec2:eu-west-1:111111111111:instance"`, whose
shortened identifier `"instance"` has no `/`, `ConvertArnToSingleResource` with
service `"ec2"` ends in the index-out-of-range panic of `s[1]`; no error value
is returned. -/
theorem ConvertArnToSingleResource_no_slash_counterexample :
    ShortArn "arn:aws:ec2:eu-west-1:111111111111:instance".toList = .ok "instance".toList ∧
    ConvertArnToSingleResource "arn:aws:ec2:eu-west-1:111111111111:instance".toList
        "ec2".toList "eu-west-1".toList
      = .error .indexOutOfRange :=
  ⟨rfl, rfl⟩

/-- C6, amended. For service `"ec2"` or `"ecs"` and every ARN whose shortened
identifier contains no `/`, `ConvertArnToSingleResource` returns no record: it
ends in an index-out-of-range panic. -/
theorem ConvertArnToSingleResource_no_slash (arn svc rgn short : Str)
    (hsvc : svc = "ec2".toList ∨ svc = "ecs".toList)
    (hshort : ShortArn arn = .ok short) (hno : '/' ∉ short) :
    ConvertArnToSingleResource arn svc rgn = .error .indexOutOfRange := by
  rw [ConvertArnToSingleResource_slash arn svc rgn short hsvc hshort]
  exact awsEC2_of_one_piece short svc rgn short (Split_of_not_mem short '/' hno)

theorem ConvertArnToSingleResource_no_slash_witness :
    ConvertArnToSingleResource "arn:aws:ecs:eu-west-1:111111111111:cluster".toList
        "ecs".toList "eu-west-1".toList
      = .error .indexOutOfRange :=
  ConvertArnToSingleResource_no_slash "arn:aws:ecs:eu-west-1:111111111111:cluster".toList
    "ecs".toList "eu-west-1".toList "cluster".toList (Or.inr rfl) rfl (by decide)

/-! ## C7: identifiers with fewer than 6 segments -/

/-- C7, counterexample. `"arn:aws:s3:eu-west-1:111111111111"` has 5 colon-delimited
segments, and `ShortArn` returns the empty string for it. -/
theorem ShortArn_five_segments_counterexample :
    (Split "arn:aws:s3:eu-west-1:111111111111".toList ':').length = 5 ∧
    ShortArn "arn:aws:s3:eu-west-1:111111111111".toList = .ok [] :=
  ⟨rfl, rfl⟩

/-- C7, amended. `ShortArn` fails, with a slice-bounds panic, exactly on the
identifiers with fewer than 5 colon-delimited segments; an identifier with
exactly 5 segments is accepted and shortened to the empty string. -/
theorem ShortArn_fails_iff (arn : Str) :
    ((∃ e, ShortArn arn = .error e) ↔ (Split arn ':').length < 5) ∧
    ((Split arn ':').length < 5 → ShortArn arn = .error .sliceBoundsOutOfRange) ∧
    ((Split arn ':').length = 5 → ShortArn arn = .ok []) := by
  refine ⟨⟨?_, fun h => ⟨_, ShortArn_of_few_segments arn h⟩⟩,
    ShortArn_of_few_segments arn, ?_⟩
  · rintro ⟨e, he⟩
    by_contra hlt
    rw [ShortArn_of_segments arn (by omega)] at he
    exact Except.noConfusion he
  · intro h5
    rw [ShortArn_of_segments arn (by omega), List.drop_of_length_le (by omega)]
    rfl

theorem ShortArn_fails_iff_witness :
    ShortArn "arn:aws:s3:eu-west-1".toList = .error .sliceBoundsOutOfRange ∧
    ShortArn "arn:aws:iam::111111111111".toList = .ok [] :=
  ⟨(ShortArn_fails_iff "arn:aws:s3:eu-west-1".toList).2.1 (by decide),
   (ShortArn_fails_iff "arn:aws:iam::111111111111".toList).2.2 (by decide)⟩

/-! ## C9: recomposing Product and ID -/

/-- C9, counterexample. For `"arn:aws:ecs:eu-west-1:111111111111:task-definition/web:3"`
and service `"ecs"` the conversion succeeds with Product `"task-definition"` and
ID `"web"`; `"task-definition/web"` is not the shortened identifier
`"task-definition/web/3"`. -/
theorem slash_rule_round_trip_counterexample :
    ShortArn "arn:aws:ecs:eu-west-1:111111111111:task-definition/web:3".toList
      = .ok "task-definition/web/3".toList ∧
    ConvertArnToSingleResource
        "arn:aws:ecs:eu-west-1:111111111111:task-definition/web:3".toList
        "ecs".toList "eu-west-1".toList
      = .ok { Region := some "eu-west-1".toList, Service := some "ecs".toList,
              Product := some "task-definition".toList, Details := none,
              ID := some "web".toList, ARN := some "task-definition/web/3".toList } ∧
    "task-definition".toList ++ "/".toList ++ "web".toList ≠ "task-definition/web/3".toList :=
  ⟨rfl, rfl, by decide⟩

/-- C9, amended. For service `"ec2"` or `"ecs"` and every ARN on which
`ConvertArnToSingleResource` succeeds, the record has a Product and an ID,
Product + "/" + ID is a leading part of the shortened identifier `ShortArn(arn)`,
and it equals the shortened identifier exactly when that identifier contains
exactly one `/`. -/
theorem slash_rule_round_trip (arn svc rgn short : Str) (r : SingleResource)
    (hsvc : svc = "ec2".toList ∨ svc = "ecs".toList)
    (hshort : ShortArn arn = .ok short)
    (hok : ConvertArnToSingleResource arn svc rgn = .ok r) :
    ∃ product id : Str, r.Product = some product ∧ r.ID = some id ∧
      (product ++ ['/'] ++ id) <+: short ∧
      (product ++ ['/'] ++ id = short ↔ short.count '/' = 1) := by
  rw [ConvertArnToSingleResource_slash arn svc rgn short hsvc hshort] at hok
  have hjoin := Join_Split short '/'
  have hcount := length_Split short '/'
  cases hs : Split short '/' with
  | nil => exact absurd hs (Split_ne_nil short '/')
  | cons a rest =>
    cases rest with
    | nil =>
      rw [awsEC2_of_one_piece short svc rgn a hs] at hok
      exact Except.noConfusion hok
    | cons b rest =>
      rw [awsEC2_of_two_pieces short svc rgn a b rest hs] at hok
      have hr := Except.ok.inj hok
      subst hr
      rw [hs] at hjoin hcount
      refine ⟨a, b, rfl, rfl, ?_, ?_⟩
      · cases rest with
        | nil =>
          simp only [Join] at hjoin
          rw [← hjoin]
        | cons c rest =>
          simp only [Join] at hjoin
          refine ⟨['/'] ++ Join (c :: rest) ['/'], ?_⟩
          rw [← hjoin]
          simp
      · cases rest with
        | nil =>
          simp only [Join] at hjoin
          simp only [List.length_cons, List.length_nil] at hcount
          constructor
          · intro _
            omega
          · intro _
            exact hjoin
        | cons c rest =>
          simp only [Join] at hjoin
          simp only [List.length_cons] at hcount
          constructor
          · intro heq
            exfalso
            rw [← hjoin] at heq
            have hlen := congrArg List.length heq
            simp at hlen
          · intro h1
            omega

theorem slash_rule_round_trip_witness :
    ∃ product id : Str,
      (SingleResource.mk (some "eu-west-1".toList) (some "ec2".toList) (some "instance".toList)
        none (some "i-0123".toList) (some "instance/i-0123".toList)).Product = some product ∧
      (SingleResource.mk (some "eu-west-1".toList) (some "ec2".toList) (some "instance".toList)
        none (some "i-0123".toList) (some "instance/i-0123".toList)).ID = some id ∧
      (product ++ ['/'] ++ id) <+: "instance/i-0123".toList ∧
      (product ++ ['/'] ++ id = "instance/i-0123".toList ↔
        "instance/i-0123".toList.count '/' = 1) :=
  slash_rule_round_trip "arn:aws:ec2:eu-west-1:111111111111:instance/i-0123".toList
    "ec2".toList "eu-west-1".toList "instance/i-0123".toList _ (Or.inl rfl) rfl rfl

/-! ## C10: the ARN field of the record -/

theorem ConvertArnToSingleResource_ARN (arn svc rgn short : Str) (r : SingleResource)
    (hshort : ShortArn arn = .ok short)
    (hok : ConvertArnToSingleResource arn svc rgn = .ok r) : r.ARN = some short := by
  by_cases hsvc : svc = "ec2".toList ∨ svc = "ecs".toList
  · rw [ConvertArnToSingleResource_slash arn svc rgn short hsvc hshort] at hok
    cases hs : Split short '/' with
    | nil => exact absurd hs (Split_ne_nil short '/')
    | cons a rest =>
      cases rest with
      | nil =>
        rw [awsEC2_of_one_piece short svc rgn a hs] at hok
        exact Except.noConfusion hok
      | cons b rest =>
        rw [awsEC2_of_two_pieces short svc rgn a b rest hs] at hok
        rw [← Except.ok.inj hok]
  · rw [not_or] at hsvc
    rw [ConvertArnToSingleResource_generic arn svc rgn short hsvc.1 hsvc.2 hshort] at hok
    rw [← Except.ok.inj hok]

theorem ShortArn_no_colon (arn short : Str) (hshort : ShortArn arn = .ok short) :
    ':' ∉ short := by
  by_cases h : 5 ≤ (Split arn ':').length
  · rw [ShortArn_of_segments arn h] at hshort
    rw [← Except.ok.inj hshort]
    refine not_mem_Join _ _ _ ?_ (by decide)
    intro s hs
    exact not_mem_of_mem_Split arn ':' s (List.mem_of_mem_drop hs)
  · rw [ShortArn_of_few_segments arn (by omega)] at hshort
    exact Except.noConfusion hshort

theorem colon_mem_of_ShortArn (arn short : Str) (hshort : ShortArn arn = .ok short) :
    ':' ∈ arn := by
  by_contra hno
  have h1 : (Split arn ':').length < 5 := by
    rw [Split_of_not_mem arn ':' hno]
    simp
  rw [ShortArn_of_few_segments arn h1] at hshort
  exact Except.noConfusion hshort

/-- C10, counterexample. The record built for
`"arn:aws:s3:eu-west-1:111111111111:bucket/my-bucket"` carries `"bucket/my-bucket"` in
its ARN field, not the identifier that was passed in. -/
theorem ConvertArnToSingleResource_ARN_counterexample :
    ConvertArnToSingleResource "arn:aws:s3:eu-west-1:111111111111:bucket/my-bucket".toList
        "s3".toList "eu-west-1".toList
      = .ok { Region := some "eu-west-1".toList, Service := some "s3".toList,
              Product := none, Details := none,
              ID := some "bucket/my-bucket".toList,
              ARN := some "bucket/my-bucket".toList } ∧
    "bucket/my-bucket".toList ≠ "arn:aws:s3:eu-west-1:111111111111:bucket/my-bucket".toList :=
  ⟨rfl, by decide⟩

/-- C10, amended. For every ARN, service and region on which
`ConvertArnToSingleResource` succeeds, the record's ARN field holds the
shortened identifier `ShortArn(arn)`, which is never the identifier that was
passed in. -/
theorem ConvertArnToSingleResource_ARN_is_short (arn svc rgn : Str) (r : SingleResource)
    (hok : ConvertArnToSingleResource arn svc rgn = .ok r) :
    ∃ short : Str, ShortArn arn = .ok short ∧ r.ARN = some short ∧ r.ARN ≠ some arn := by
  cases hshort : ShortArn arn with
  | error e =>
    rw [ConvertArnToSingleResource_error arn svc rgn e hshort] at hok
    exact Except.noConfusion hok
  | ok short =>
    have hARN := ConvertArnToSingleResource_ARN arn svc rgn short r hshort hok
    refine ⟨short, rfl, hARN, ?_⟩
    rw [hARN]
    intro heq
    have hEq : short = arn := Option.some.inj heq
    have h1 := ShortArn_no_colon arn short hshort
    have h2 := colon_mem_of_ShortArn arn short hshort
    rw [hEq] at h1
    exact h1 h2

theorem ConvertArnToSingleResource_ARN_is_short_witness :
    ∃ short : Str,
      ShortArn "arn:aws:ec2:eu-west-1:111111111111:vpc/vpc-0a1b".toList = .ok short ∧
      (SingleResource.mk (some "eu-west-1".toList) (some "ec2".toList) (some "vpc".toList)
        none (some "vpc-0a1b".toList) (some "vpc/vpc-0a1b".toList)).ARN = some short ∧
      (SingleResource.mk (some "eu-west-1".toList) (some "ec2".toList) (some "vpc".toList)
        none (some "vpc-0a1b".toList) (some "vpc/vpc-0a1b".toList)).ARN
        ≠ some "arn:aws:ec2:eu-west-1:111111111111:vpc/vpc-0a1b".toList :=
  ConvertArnToSingleResource_ARN_is_short
    "arn:aws:ec2:eu-west-1:111111111111:vpc/vpc-0a1b".toList "ec2".toList "eu-west-1".toList _
    rfl

/-! ## C5: classification and conversion, end to end -/

theorem no_arnAws_in_service (svc t : Str)
    (hsvc : svc = "ec2".toList ∨ svc = "ecs".toList) :
    ∀ p q : Str, ':' ∉ p → svc ++ ':' :: t ≠ p ++ arnAws ++ q := by
  intro p q hp h
  rcases hsvc with hsvc | hsvc <;> subst hsvc <;>
    rcases p with _ | ⟨a, _ | ⟨b, _ | ⟨c, _ | ⟨d, p⟩⟩⟩⟩ <;>
    simp [arnAws] at h hp <;>
    exact hp.2.2.2.1 h.2.2.2.1

theorem Split_known_arn (svc r a tail : Str) (hsvc : ':' ∉ svc) (hr : ':' ∉ r)
    (ha : ':' ∉ a) (htail : ':' ∉ tail) :
    Split (arnAws ++ svc ++ [':'] ++ r ++ [':'] ++ a ++ [':'] ++ tail) ':' =
      ["arn".toList, "aws".toList, svc, r, a, tail] := by
  have hshape : arnAws ++ svc ++ [':'] ++ r ++ [':'] ++ a ++ [':'] ++ tail =
      "arn".toList ++ ':' :: ("aws".toList ++ ':' :: (svc ++ ':' :: (r ++ ':' ::
        (a ++ ':' :: tail)))) := by
    simp [arnAws]
  rw [hshape, Split_append_sep _ _ ':' (by decide), Split_append_sep _ _ ':' (by decide),
    Split_append_sep _ _ ':' hsvc, Split_append_sep _ _ ':' hr, Split_append_sep _ _ ':' ha,
    Split_of_not_mem _ ':' htail]

/-- C5. For `svc` one of `"ec2"`, `"ecs"`, a region `r` and an account `a` without
`:`, and a label `l` and a value `v` with neither `:` nor `/`, the ARN
`"arn:aws:" + svc + ":" + r + ":" + a + ":" + l + "/" + v` is classified by
`ServiceNameFromARN` as `svc`, and `ConvertArnToSingleResource` with that service
yields a record with Service `svc`, Product `l` and ID `v`. -/
theorem known_service_end_to_end (svc r a l v rgn : Str)
    (hsvc : svc = "ec2".toList ∨ svc = "ecs".toList)
    (hr : ':' ∉ r) (ha : ':' ∉ a) (hl : ':' ∉ l ∧ '/' ∉ l) (hv : ':' ∉ v ∧ '/' ∉ v) :
    ∃ (service : Str) (rec : SingleResource),
      ServiceNameFromARN
        (arnAws ++ svc ++ [':'] ++ r ++ [':'] ++ a ++ [':'] ++ (l ++ ['/'] ++ v))
        = .ok service ∧
      ConvertArnToSingleResource
        (arnAws ++ svc ++ [':'] ++ r ++ [':'] ++ a ++ [':'] ++ (l ++ ['/'] ++ v)) service rgn
        = .ok rec ∧
      service = svc ∧ rec.Service = some svc ∧ rec.Product = some l ∧ rec.ID = some v ∧
      rec.Region = some rgn := by
  have hsvcColon : ':' ∉ svc := by
    rcases hsvc with h | h <;> subst h <;> decide
  have htail : ':' ∉ l ++ ['/'] ++ v := by
    simp [hl.1, hv.1]
  have hclass : ServiceNameFromARN
      (arnAws ++ svc ++ [':'] ++ r ++ [':'] ++ a ++ [':'] ++ (l ++ ['/'] ++ v)) = .ok svc := by
    have hshape : arnAws ++ svc ++ [':'] ++ r ++ [':'] ++ a ++ [':'] ++ (l ++ ['/'] ++ v) =
        arnAws ++ (svc ++ ':' :: (r ++ [':'] ++ a ++ [':'] ++ (l ++ ['/'] ++ v))) := by
      simp
    rw [hshape]
    refine ServiceNameFromARN_prefixed _ svc ?_ (no_arnAws_in_service svc _ hsvc)
    rw [Split_append_sep svc _ ':' hsvcColon]
    rfl
  have hsplit := Split_known_arn svc r a (l ++ ['/'] ++ v) hsvcColon hr ha htail
  have hshort : ShortArn
      (arnAws ++ svc ++ [':'] ++ r ++ [':'] ++ a ++ [':'] ++ (l ++ ['/'] ++ v))
        = .ok (l ++ ['/'] ++ v) := by
    rw [ShortArn_of_segments _ (by rw [hsplit]; simp), hsplit]
    rfl
  have hpieces : Split (l ++ ['/'] ++ v) '/' = l :: v :: [] := by
    have hshape : l ++ ['/'] ++ v = l ++ '/' :: v := by simp
    rw [hshape, Split_append_sep l v '/' hl.2, Split_of_not_mem v '/' hv.2]
  refine ⟨svc, SingleResource.mk (some rgn) (some svc) (some l) none (some v)
    (some (l ++ ['/'] ++ v)), hclass, ?_, rfl, rfl, rfl, rfl, rfl⟩
  rw [ConvertArnToSingleResource_slash _ svc rgn _ hsvc hshort,
    awsEC2_of_two_pieces _ svc rgn l v [] hpieces]

theorem known_service_end_to_end_witness :
    ∃ (service : Str) (rec : SingleResource),
      ServiceNameFromARN "arn:aws:ec2:eu-west-1:111111111111:instance/i-0123abc".toList
        = .ok service ∧
      ConvertArnToSingleResource "arn:aws:ec2:eu-west-1:111111111111:instance/i-0123abc".toList
        service "eu-west-1".toList = .ok rec ∧
      service = "ec2".toList ∧ rec.Service = some "ec2".toList ∧
      rec.Product = some "instance".toList ∧ rec.ID = some "i-0123abc".toList ∧
      rec.Region = some "eu-west-1".toList :=
  known_service_end_to_end "ec2".toList "eu-west-1".toList "111111111111".toList
    "instance".toList "i-0123abc".toList "eu-west-1".toList (Or.inl rfl) (by decide) (by decide)
    (by decide) (by decide)

/-! ## More facts about the conversion -/

theorem two_le_length_Split (s : Str) (sep : Char) (h : sep ∈ s) :
    2 ≤ (Split s sep).length := by
  rw [length_Split]
  have := List.count_pos_iff.mpr h
  omega

theorem awsEC2_ok_of_mem (short svc rgn : Str) (h : '/' ∈ short) :
    ∃ r, awsEC2.ConvertToResource short svc rgn = .ok r := by
  have hlen := two_le_length_Split short '/' h
  cases hs : Split short '/' with
  | nil => rw [hs] at hlen; simp at hlen
  | cons a rest =>
    cases rest with
    | nil => rw [hs] at hlen; simp at hlen
    | cons b rest => exact ⟨_, awsEC2_of_two_pieces short svc rgn a b rest hs⟩

theorem ConvertArnToSingleResource_fields (arn svc rgn : Str) (r : SingleResource)
    (hok : ConvertArnToSingleResource arn svc rgn = .ok r) :
    r.Region = some rgn ∧ r.Service = some svc := by
  cases hshort : ShortArn arn with
  | error e =>
    rw [ConvertArnToSingleResource_error arn svc rgn e hshort] at hok
    exact Except.noConfusion hok
  | ok short =>
    by_cases hsvc : svc = "ec2".toList ∨ svc = "ecs".toList
    · rw [ConvertArnToSingleResource_slash arn svc rgn short hsvc hshort] at hok
      cases hs : Split short '/' with
      | nil => exact absurd hs (Split_ne_nil short '/')
      | cons a rest =>
        cases rest with
        | nil =>
          rw [awsEC2_of_one_piece short svc rgn a hs] at hok
          exact Except.noConfusion hok
        | cons b rest =>
          rw [awsEC2_of_two_pieces short svc rgn a b rest hs] at hok
          rw [← Except.ok.inj hok]
          exact ⟨rfl, rfl⟩
    · rw [not_or] at hsvc
      rw [ConvertArnToSingleResource_generic arn svc rgn short hsvc.1 hsvc.2 hshort] at hok
      rw [← Except.ok.inj hok]
      exact ⟨rfl, rfl⟩

theorem mem_Join_of_two (a b : Str) (rest : List Str) (sep : Char) :
    sep ∈ Join (a :: b :: rest) [sep] := by
  simp [Join]

/-! ## C17: when the conversion fails -/

/-- C17. `ConvertArnToSingleResource(arn, svc, rgn)` fails exactly when `arn` has
fewer than 5 colon-delimited segments, or `svc` is `"ec2"` or `"ecs"` and the
shortened identifier contains no `/`; a failure is an out-of-range panic (of the
slice `[5:]` or of the index `[1]`), and in every other case a record is
returned.  An ARN with exactly 5 segments is accepted for a generic service,
with an empty ID, and with 7 or more segments every ARN is accepted for `"ec2"`
and `"ecs"`. -/
theorem ConvertArnToSingleResource_fails_iff (arn svc rgn : Str) :
    ((∃ e, ConvertArnToSingleResource arn svc rgn = .error e) ↔
      ((Split arn ':').length < 5 ∨
        ((svc = "ec2".toList ∨ svc = "ecs".toList) ∧
          ∃ short, ShortArn arn = .ok short ∧ '/' ∉ short))) ∧
    (∀ e, ConvertArnToSingleResource arn svc rgn = .error e →
      e = .sliceBoundsOutOfRange ∨ e = .indexOutOfRange) ∧
    ((∀ e, ConvertArnToSingleResource arn svc rgn ≠ .error e) →
      ∃ r, ConvertArnToSingleResource arn svc rgn = .ok r) ∧
    ((Split arn ':').length = 5 → svc ≠ "ec2".toList → svc ≠ "ecs".toList →
      ∃ r, ConvertArnToSingleResource arn svc rgn = .ok r ∧ r.ID = some []) ∧
    (7 ≤ (Split arn ':').length → (svc = "ec2".toList ∨ svc = "ecs".toList) →
      ∃ r, ConvertArnToSingleResource arn svc rgn = .ok r) := by
  refine ⟨⟨?_, ?_⟩, ?_, ?_, ?_, ?_⟩
  · rintro ⟨e, he⟩
    by_cases hlen : (Split arn ':').length < 5
    · exact Or.inl hlen
    · right
      have hshort := ShortArn_of_segments arn (by omega)
      by_cases hsvc : svc = "ec2".toList ∨ svc = "ecs".toList
      · refine ⟨hsvc, _, hshort, ?_⟩
        intro hmem
        rw [ConvertArnToSingleResource_slash arn svc rgn _ hsvc hshort] at he
        obtain ⟨r, hr⟩ := awsEC2_ok_of_mem _ svc rgn hmem
        rw [hr] at he
        exact Except.noConfusion he
      · rw [not_or] at hsvc
        rw [ConvertArnToSingleResource_generic arn svc rgn _ hsvc.1 hsvc.2 hshort] at he
        exact Except.noConfusion he
  · rintro (hlen | ⟨hsvc, short, hshort, hno⟩)
    · exact ⟨_, ConvertArnToSingleResource_error arn svc rgn _
        (ShortArn_of_few_segments arn hlen)⟩
    · refine ⟨.indexOutOfRange, ?_⟩
      rw [ConvertArnToSingleResource_slash arn svc rgn short hsvc hshort]
      exact awsEC2_of_one_piece short svc rgn short (Split_of_not_mem short '/' hno)
  · intro e he
    by_cases hlen : (Split arn ':').length < 5
    · rw [ConvertArnToSingleResource_error arn svc rgn _ (ShortArn_of_few_segments arn hlen)]
        at he
      exact Or.inl (Except.error.inj he).symm
    · have hshort := ShortArn_of_segments arn (by omega)
      by_cases hsvc : svc = "ec2".toList ∨ svc = "ecs".toList
      · rw [ConvertArnToSingleResource_slash arn svc rgn _ hsvc hshort] at he
        cases hs : Split (Join ((Split arn ':').drop 5) ['/']) '/' with
        | nil => exact absurd hs (Split_ne_nil _ '/')
        | cons a rest =>
          cases rest with
          | nil =>
            rw [awsEC2_of_one_piece _ svc rgn a hs] at he
            exact Or.inr (Except.error.inj he).symm
          | cons b rest =>
            rw [awsEC2_of_two_pieces _ svc rgn a b rest hs] at he
            exact Except.noConfusion he
      · rw [not_or] at hsvc
        rw [ConvertArnToSingleResource_generic arn svc rgn _ hsvc.1 hsvc.2 hshort] at he
        exact Except.noConfusion he
  · intro hno
    cases h : ConvertArnToSingleResource arn svc rgn with
    | error e => exact absurd h (hno e)
    | ok r => exact ⟨r, rfl⟩
  · intro h5 h2 hs
    have hshort := ShortArn_of_segments arn (by omega)
    rw [List.drop_of_length_le (by omega)] at hshort
    exact ⟨_, ConvertArnToSingleResource_generic arn svc rgn _ h2 hs hshort, rfl⟩
  · intro h7 hsvc
    have hshort := ShortArn_of_segments arn (by omega)
    rw [ConvertArnToSingleResource_slash arn svc rgn _ hsvc hshort]
    apply awsEC2_ok_of_mem
    cases hd : (Split arn ':').drop 5 with
    | nil =>
      have := congrArg List.length hd
      simp at this
      omega
    | cons a rest =>
      cases rest with
      | nil =>
        have := congrArg List.length hd
        simp at this
        omega
      | cons b rest => exact mem_Join_of_two a b rest '/'

theorem ConvertArnToSingleResource_fails_iff_witness :
    (∃ r, ConvertArnToSingleResource "arn:aws:iam::111111111111".toList "iam".toList
        "eu-west-1".toList = .ok r ∧ r.ID = some []) ∧
    (∃ r, ConvertArnToSingleResource "arn:aws:ecs:eu-west-1:1:task-definition:web".toList
        "ecs".toList "eu-west-1".toList = .ok r) ∧
    (∃ e, ConvertArnToSingleResource "arn:aws:ecs:eu-west-1".toList "ecs".toList
        "eu-west-1".toList = .error e) :=
  ⟨(ConvertArnToSingleResource_fails_iff "arn:aws:iam::111111111111".toList "iam".toList
      "eu-west-1".toList).2.2.2.1 (by decide) (by decide) (by decide),
   (ConvertArnToSingleResource_fails_iff "arn:aws:ecs:eu-west-1:1:task-definition:web".toList
      "ecs".toList "eu-west-1".toList).2.2.2.2 (by decide) (Or.inr rfl),
   (ConvertArnToSingleResource_fails_iff "arn:aws:ecs:eu-west-1".toList "ecs".toList
      "eu-west-1".toList).1.2 (Or.inl (by decide))⟩

/-! ## C18: `:` and `/` in the tail of an identifier -/

theorem ShortArn_Join_append (head tail : List Str) (hhead : head.length = 5)
    (hcolon : ∀ s ∈ head ++ tail, ':' ∉ s) :
    ShortArn (Join (head ++ tail) [':']) = .ok (Join tail ['/']) := by
  have hne : head ++ tail ≠ [] := by
    intro h
    have h1 : head = [] := (List.append_eq_nil.mp h).1
    rw [h1] at hhead
    exact absurd hhead (by decide)
  have hsplit := Split_Join (head ++ tail) ':' hne hcolon
  rw [ShortArn_of_segments _ (by rw [hsplit]; simp; omega), hsplit, List.drop_left' hhead]

theorem ConvertArnToSingleResource_congr (arn arn' svc rgn : Str)
    (h : ShortArn arn = ShortArn arn') :
    ConvertArnToSingleResource arn svc rgn = ConvertArnToSingleResource arn' svc rgn := by
  simp only [ConvertArnToSingleResource, h]

/-- C18. For every identifier with at least 5 colon-delimited segments `ShortArn`
returns a string without `:`.  Two identifiers with the same five leading
segments whose tails, cut at `:` into `tail` and `tail'`, read the same once
joined with `/` (as `db:mydb` and `db/mydb` do) have the same shortened
identifier, and `ConvertArnToSingleResource` gives the same result for both,
whatever the service and the region. -/
theorem ShortArn_separator_normalisation :
    (∀ arn : Str, 5 ≤ (Split arn ':').length →
      ∃ short, ShortArn arn = .ok short ∧ ':' ∉ short) ∧
    (∀ head tail tail' : List Str, head.length = 5 →
      (∀ s ∈ head ++ tail, ':' ∉ s) → (∀ s ∈ head ++ tail', ':' ∉ s) →
      Join tail ['/'] = Join tail' ['/'] →
      ShortArn (Join (head ++ tail) [':']) = .ok (Join tail ['/']) ∧
      ShortArn (Join (head ++ tail') [':']) = .ok (Join tail ['/']) ∧
      ∀ svc rgn : Str,
        ConvertArnToSingleResource (Join (head ++ tail) [':']) svc rgn =
          ConvertArnToSingleResource (Join (head ++ tail') [':']) svc rgn) := by
  constructor
  · intro arn h5
    have hshort := ShortArn_of_segments arn h5
    exact ⟨_, hshort, ShortArn_no_colon arn _ hshort⟩
  · intro head tail tail' hhead hcolon hcolon' hsame
    have h1 := ShortArn_Join_append head tail hhead hcolon
    have h2 := ShortArn_Join_append head tail' hhead hcolon'
    rw [← hsame] at h2
    exact ⟨h1, h2, fun svc rgn =>
      ConvertArnToSingleResource_congr _ _ svc rgn (h1.trans h2.symm)⟩

theorem ShortArn_separator_normalisation_witness :
    ShortArn "arn:aws:rds:eu-west-1:111111111111:db:mydb".toList = .ok "db/mydb".toList ∧
    ShortArn "arn:aws:rds:eu-west-1:111111111111:db/mydb".toList = .ok "db/mydb".toList ∧
    ConvertArnToSingleResource "arn:aws:rds:eu-west-1:111111111111:db:mydb".toList
        "rds".toList "eu-west-1".toList =
      ConvertArnToSingleResource "arn:aws:rds:eu-west-1:111111111111:db/mydb".toList
        "rds".toList "eu-west-1".toList :=
  have h := ShortArn_separator_normalisation.2
    ["arn".toList, "aws".toList, "rds".toList, "eu-west-1".toList, "111111111111".toList]
    ["db".toList, "mydb".toList] ["db/mydb".toList] rfl (by decide) (by decide) rfl
  ⟨h.1, h.2.1, h.2.2 "rds".toList "eu-west-1".toList⟩

/-! ## C11: Region and Service of a normalised record -/

theorem ServiceNameFromARN_eq_nil_iff (arn : Str) :
    ServiceNameFromARN arn = .ok [] ↔
      (Replace arn arnAws [] = [] ∨ ∃ rest, Replace arn arnAws [] = ':' :: rest) := by
  rw [ServiceNameFromARN_eq, headD_Split]
  cases h : Replace arn arnAws [] with
  | nil => simp
  | cons c cs =>
    by_cases hc : c = ':'
    · subst hc
      simp
    · simp [List.takeWhile_cons, hc]

/-- C11, counterexample. `"arn:aws::eu-west-1:111111111111:thing"` is classified as
the empty service name, and the conversion with that service and the non-empty
region `"eu-west-1"` succeeds with an empty Service. -/
theorem normalized_record_service_counterexample :
    ServiceNameFromARN "arn:aws::eu-west-1:111111111111:thing".toList = .ok [] ∧
    ConvertArnToSingleResource "arn:aws::eu-west-1:111111111111:thing".toList []
        "eu-west-1".toList
      = .ok { Region := some "eu-west-1".toList, Service := some [], Product := none,
              Details := none, ID := some "thing".toList, ARN := some "thing".toList } :=
  ⟨rfl, rfl⟩

/-- C11, amended. For every ARN and every non-empty region, if normalisation
(`svc = ServiceNameFromARN(arn)`, then `ConvertArnToSingleResource(arn, svc, rgn)`)
succeeds, the record's Region and Service are both present, Region is the
non-empty region passed in, and Service is the classifier's result, which is
empty exactly when the ARN with every `"arn:aws:"` deleted is empty or begins
with `:`. -/
theorem normalized_record_fields (arn svc rgn : Str) (r : SingleResource)
    (hrgn : rgn ≠ []) (hsvc : ServiceNameFromARN arn = .ok svc)
    (hok : ConvertArnToSingleResource arn svc rgn = .ok r) :
    (∃ region, r.Region = some region ∧ region = rgn ∧ region ≠ []) ∧
    (∃ service, r.Service = some service ∧ service = svc ∧
      (service = [] ↔
        (Replace arn arnAws [] = [] ∨ ∃ rest, Replace arn arnAws [] = ':' :: rest))) := by
  have hfields := ConvertArnToSingleResource_fields arn svc rgn r hok
  refine ⟨⟨rgn, hfields.1, rfl, hrgn⟩, ⟨svc, hfields.2, rfl, ?_⟩⟩
  rw [← ServiceNameFromARN_eq_nil_iff, hsvc]
  constructor
  · intro h
    rw [h]
  · intro h
    exact Except.ok.inj h

theorem normalized_record_fields_witness :
    (∃ region, (SingleResource.mk (some "eu-west-1".toList) (some "s3".toList) none none
        (some "bucket/my-bucket".toList) (some "bucket/my-bucket".toList)).Region = some region ∧
      region = "eu-west-1".toList ∧ region ≠ []) ∧
    (∃ service, (SingleResource.mk (some "eu-west-1".toList) (some "s3".toList) none none
        (some "bucket/my-bucket".toList) (some "bucket/my-bucket".toList)).Service
          = some service ∧ service = "s3".toList ∧
      (service = [] ↔
        (Replace "arn:aws:s3:eu-west-1:111111111111:bucket/my-bucket".toList arnAws [] = [] ∨
          ∃ rest, Replace "arn:aws:s3:eu-west-1:111111111111:bucket/my-bucket".toList arnAws []
            = ':' :: rest))) :=
  normalized_record_fields "arn:aws:s3:eu-west-1:111111111111:bucket/my-bucket".toList
    "s3".toList "eu-west-1".toList _ (by decide) rfl rfl

/-! ## Facts about the loop of a region -/

theorem appendResources_append (region : Str) (xs ys : List (Option ResourceTagMapping))
    (acc : List SingleResource) :
    appendResources region (xs ++ ys) acc =
      (appendResources region xs acc).bind (appendResources region ys) := by
  induction xs generalizing acc with
  | nil => rfl
  | cons x xs ih =>
    simp only [List.cons_append, appendResources, bind]
    cases convertResource region x with
    | error e => rfl
    | ok record =>
      simp only [Except.bind]
      exact ih _

theorem appendResources_frame (region : Str) (xs : List (Option ResourceTagMapping))
    (front acc : List SingleResource) :
    appendResources region xs (front ++ acc) =
      (appendResources region xs acc).map (front ++ ·) := by
  induction xs generalizing acc with
  | nil => rfl
  | cons x xs ih =>
    simp only [appendResources, bind]
    cases convertResource region x with
    | error e => rfl
    | ok record =>
      simp only [Except.bind]
      rw [List.append_assoc]
      exact ih _

theorem appendResources_of_forall₂ (region : Str) (xs : List (Option ResourceTagMapping))
    (records acc : List SingleResource)
    (h : List.Forall₂ (fun item record => convertResource region item = .ok record) xs records) :
    appendResources region xs acc = .ok (acc ++ records) := by
  induction h generalizing acc with
  | nil => simp [appendResources]
  | cons hx _ ih =>
    simp only [appendResources, bind, hx, Except.bind]
    rw [ih]
    simp

theorem loopBody_stateless {σ : Type} (respond : GetResourcesInput → CallResult)
    (region : Str) (s : LoopState σ) (page : GetResourcesOutput) (token : Str)
    (mid : List SingleResource)
    (hresp : respond (requestFor (cursorOf s.paginationToken)) = (some page, none))
    (hitems : appendResources region page.ResourceTagMappingList s.resources = .ok mid)
    (htoken : page.PaginationToken = some token) :
    loopBody (statelessClient respond) region s =
      .ok ({ service := s.service, paginationToken := token, resources := mid,
             requests := s.requests ++ firstRequests s.paginationToken,
             printed := s.printed }, decide (token = [])) := by
  by_cases h : s.paginationToken = []
  · have hresp' := hresp
    simp only [cursorOf, h, if_true, requestFor] at hresp'
    simp [loopBody, h, callGetResources, statelessClient, hresp', hitems, htoken,
      firstRequests, requestFor, bind, Except.bind, pure, Except.pure]
  · have hresp' := hresp
    simp only [cursorOf, h, if_false, requestFor] at hresp'
    simp [loopBody, h, callGetResources, statelessClient, hresp', hitems, htoken,
      firstRequests, requestFor, bind, Except.bind, pure, Except.pure]

theorem cursorOf_of_ne (token : Str) (h : token ≠ []) : cursorOf token = some token := by
  simp [cursorOf, h]

theorem firstRequests_of_ne (token : Str) (h : token ≠ []) :
    firstRequests token = [requestFor (some token)] := by
  simp [firstRequests, h]

/-- The loop of a region over a mocked API that serves `pages` from the stored
cursor on: with `pages.length` iterations allowed it ends normally, having
appended the records of the items of all pages and issued `servedRequests`. -/
theorem paginationLoop_served {σ : Type} (respond : GetResourcesInput → CallResult)
    (region : Str) (pages : List GetResourcesOutput) :
    ∀ (s : LoopState σ) (records : List SingleResource) (fuel : Nat),
      Serves respond (cursorOf s.paginationToken) pages →
      appendResources region (pages.flatMap (fun page => page.ResourceTagMappingList))
        s.resources = .ok records →
      pages.length ≤ fuel →
      paginationLoop (statelessClient respond) region fuel s =
        some (.ok { service := s.service, paginationToken := [], resources := records,
                    requests := s.requests ++ servedRequests s.paginationToken pages,
                    printed := s.printed }) := by
  induction pages with
  | nil =>
    intro s records fuel hserves
    exact absurd hserves (by simp [Serves])
  | cons page rest ih =>
    intro s records fuel hserves hrecords hfuel
    obtain ⟨fuel, rfl⟩ : ∃ n, fuel = n + 1 := ⟨fuel - 1, by simp at hfuel; omega⟩
    rw [List.flatMap_cons, appendResources_append] at hrecords
    cases hmid : appendResources region page.ResourceTagMappingList s.resources with
    | error e =>
      rw [hmid] at hrecords
      exact Except.noConfusion hrecords
    | ok mid =>
      rw [hmid] at hrecords
      simp only [Except.bind] at hrecords
      cases rest with
      | nil =>
        obtain ⟨hresp, htoken⟩ := hserves
        simp only [List.flatMap_nil, appendResources] at hrecords
        have hmidEq : mid = records := Except.ok.inj hrecords
        rw [paginationLoop, loopBody_stateless respond region s page [] mid hresp hmid htoken]
        simp [servedRequests, hmidEq]
      | cons next rest =>
        obtain ⟨hresp, token, htoken, hne, hrest⟩ := hserves
        rw [paginationLoop, loopBody_stateless respond region s page token mid hresp hmid htoken]
        simp only [hne, decide_False]
        rw [ih _ records fuel (by simpa [cursorOf_of_ne token hne] using hrest) hrecords
          (by simp at hfuel ⊢; omega)]
        simp [servedRequests, firstRequests_of_ne token hne, htoken]

theorem length_servedRequests (pages : List GetResourcesOutput) (h : pages ≠ []) :
    (servedRequests [] pages).length = pages.length + 1 := by
  have hpos : 0 < pages.length := List.length_pos.mpr h
  simp [servedRequests, firstRequests]
  omega

/-! ## C13: what the loop of a region accumulates -/

/-- C13, counterexample. `malformedItemMock` answers every request, whatever its
cursor, and serves `N = 1` page, whose cursor is empty; the page's only item is an
EC2 identifier without `/`, whose conversion panics, so the loop of a region ends
in that panic and appends no record. -/
theorem paginationLoop_malformed_item_counterexample :
    Serves malformedItemMock none [malformedPage] ∧
    convertResource "eu-west-1".toList
        (some { ResourceARN := some "arn:aws:ec2:eu-west-1:111111111111:instance".toList })
      = .error .indexOutOfRange ∧
    paginationLoop (statelessClient malformedItemMock) "eu-west-1".toList 1 (initialState ())
      = some (.error .indexOutOfRange) :=
  ⟨⟨rfl, rfl⟩, rfl, rfl⟩

/-- C13, amended. For a mocked API whose answer depends on the request only and
that serves, without error, the pages `pages` (at least one; a non-empty cursor
on all but the last, and the non-nil empty string as cursor of the last), every
item of which converts to a record without a panic, the loop of a region started
with an empty `paginationToken` ends normally within `pages.length` iterations,
and it has appended to `resources` exactly the records `records` of the items of
the pages, in page order and in item order, each item once.  When the only page
has no items, nothing is appended. -/
theorem paginationLoop_accumulates {σ : Type} (respond : GetResourcesInput → CallResult)
    (region : Str) (pages : List GetResourcesOutput) (records : List SingleResource)
    (s : LoopState σ) (fuel : Nat)
    (htoken : s.paginationToken = [])
    (hserves : Serves respond none pages)
    (hrecords : List.Forall₂ (fun item record => convertResource region item = .ok record)
      (pages.flatMap (fun page => page.ResourceTagMappingList)) records)
    (hfuel : pages.length ≤ fuel) :
    ∃ s', paginationLoop (statelessClient respond) region fuel s = some (.ok s') ∧
      s'.resources = s.resources ++ records := by
  refine ⟨_, paginationLoop_served respond region pages s (s.resources ++ records) fuel ?_
    (appendResources_of_forall₂ region _ records s.resources hrecords) hfuel, rfl⟩
  simpa [cursorOf, htoken] using hserves

theorem paginationLoop_accumulates_witness :
    (∃ s', paginationLoop (statelessClient twoPageMock) "eu-west-1".toList 2
        (initialState ()) = some (.ok s') ∧
      s'.resources = (initialState ()).resources ++
        [{ Region := some "eu-west-1".toList, Service := some "ec2".toList,
           Product := some "instance".toList, Details := none,
           ID := some "i-0123abc".toList, ARN := some "instance/i-0123abc".toList },
         { Region := some "eu-west-1".toList, Service := some "s3".toList,
           Product := none, Details := none,
           ID := some "bucket/my-bucket".toList, ARN := some "bucket/my-bucket".toList }]) ∧
    (∃ s', paginationLoop (statelessClient emptyRegionMock) "eu-west-1".toList 1
        (initialState ()) = some (.ok s') ∧
      s'.resources = (initialState ()).resources ++ []) :=
  ⟨paginationLoop_accumulates twoPageMock "eu-west-1".toList [firstPage, lastPage] _
      (initialState ()) 2 rfl ⟨rfl, "t1".toList, rfl, by decide, rfl, rfl⟩
      (List.Forall₂.cons rfl (List.Forall₂.cons rfl List.Forall₂.nil)) (by decide),
   paginationLoop_accumulates emptyRegionMock "eu-west-1".toList
      [{ ResourceTagMappingList := [], PaginationToken := some [] }] []
      (initialState ()) 1 rfl ⟨rfl, rfl⟩ List.Forall₂.nil (by decide)⟩

/-! ## C12: how many requests the loop of a region issues -/

/-- C12, at the failing input. `twoPageMock` serves `N = 2` pages, the first with
the non-empty cursor `"t1"` and the last with the empty cursor; the loop of a
region issues 3 requests to it, the request without cursor twice. -/
theorem paginationLoop_request_count_two_pages :
    Serves twoPageMock none [firstPage, lastPage] ∧
    ∃ s', paginationLoop (statelessClient twoPageMock) "eu-west-1".toList 2
        (initialState ()) = some (.ok s') ∧
      s'.requests = [requestFor none, requestFor none, requestFor (some "t1".toList)] ∧
      s'.requests.length = 3 :=
  ⟨⟨rfl, "t1".toList, rfl, by decide, rfl, rfl⟩, _, rfl, rfl, rfl⟩

/-! ## C16: the shape of the requests -/

/-- C16, at the failing input. The first response of `emptyRegionMock` carries the
empty cursor, and the loop of a region does not stop there: it issues the
request without cursor a second time before it ends. -/
theorem paginationLoop_request_after_empty_cursor :
    (∃ page, (emptyRegionMock (requestFor none)).1 = some page ∧
      page.PaginationToken = some []) ∧
    ∃ s', paginationLoop (statelessClient emptyRegionMock) "eu-west-1".toList 1
        (initialState ()) = some (.ok s') ∧
      s'.requests = [requestFor none, requestFor none] :=
  ⟨⟨_, rfl, rfl⟩, _, rfl, rfl⟩

/-! ## C15: a failed request -/

/-- C15, at the failing input. On `failingMock`, whose calls fail with a zero-valued
output, the loop of a region does not carry on: after the failed requests it ends
in a nil-pointer panic at `*out.PaginationToken`. -/
theorem paginationLoop_failed_request_panics :
    failingMock (requestFor none) =
      (some { ResourceTagMappingList := [], PaginationToken := none },
        some "RequestError: send request failed".toList) ∧
    paginationLoop (statelessClient failingMock) "eu-west-1".toList 1 (initialState ())
      = some (.error .nilPointerDereference) ∧
    main (fun _ => statelessClient failingMock) 1 () = some (.error .nilPointerDereference) :=
  ⟨rfl, rfl, rfl⟩

/-! ## Facts about the loop over the regions -/

theorem callGetResources_frame {σ : Type} (r : Client σ) (s : LoopState σ)
    (inp : GetResourcesInput) (front : List SingleResource) (reqs : List GetResourcesInput)
    (errs : List ApiError) :
    callGetResources r (s.frame front reqs errs) inp =
      ((callGetResources r s inp).1, (callGetResources r s inp).2.frame front reqs errs) := by
  simp [callGetResources, LoopState.frame, List.append_assoc]

theorem loopBody_frame {σ : Type} (r : Client σ) (region : Str) (s : LoopState σ)
    (front : List SingleResource) (reqs : List GetResourcesInput) (errs : List ApiError) :
    loopBody r region (s.frame front reqs errs) =
      (loopBody r region s).map (fun x => (x.1.frame front reqs errs, x.2)) := by
  have htok : (s.frame front reqs errs).paginationToken = s.paginationToken := rfl
  unfold loopBody
  rw [htok]
  by_cases h : s.paginationToken.length = 0
  · simp only [h, if_true, callGetResources_frame]
    cases hout : (callGetResources r (callGetResources r s
        { ResourcesPerPage := some 50, PaginationToken := none }).2
        { ResourcesPerPage := some 50, PaginationToken := none }).1 with
    | none => rfl
    | some out =>
      simp only [LoopState.frame, appendResources_frame, bind, Except.bind, Except.map]
      cases appendResources region out.ResourceTagMappingList
        (callGetResources r (callGetResources r s
          { ResourcesPerPage := some 50, PaginationToken := none }).2
          { ResourcesPerPage := some 50, PaginationToken := none }).2.resources with
      | error e => rfl
      | ok res =>
        cases out.PaginationToken with
        | none => rfl
        | some token => rfl
  · simp only [h, if_false, callGetResources_frame]
    cases hout : (callGetResources r s
        { ResourcesPerPage := some 50, PaginationToken := some s.paginationToken }).1 with
    | none => rfl
    | some out =>
      simp only [LoopState.frame, appendResources_frame, bind, Except.bind, Except.map]
      cases appendResources region out.ResourceTagMappingList
        (callGetResources r s
          { ResourcesPerPage := some 50, PaginationToken := some s.paginationToken }).2.resources
        with
      | error e => rfl
      | ok res =>
        cases out.PaginationToken with
        | none => rfl
        | some token => rfl

theorem paginationLoop_frame {σ : Type} (r : Client σ) (region : Str)
    (front : List SingleResource) (reqs : List GetResourcesInput) (errs : List ApiError) :
    ∀ (fuel : Nat) (s : LoopState σ),
      paginationLoop r region fuel (s.frame front reqs errs) =
        (paginationLoop r region fuel s).map (Except.map (LoopState.frame front reqs errs)) := by
  intro fuel
  induction fuel with
  | zero => intro s; rfl
  | succ fuel ih =>
    intro s
    simp only [paginationLoop, loopBody_frame]
    cases loopBody r region s with
    | error e => rfl
    | ok x =>
      obtain ⟨s', stop⟩ := x
      cases stop with
      | true => rfl
      | false => exact ih s'

theorem regionsLoop_eq_collectionDriver {σ : Type} (clients : Str → Client σ) (fuel : Nat)
    (regions : List Str) :
    ∀ s : LoopState σ,
      (regionsLoop clients fuel regions s).map
          (Except.map (fun t => (t.resources, t.service))) =
        (collectionDriver clients fuel regions s.service).map
          (Except.map (fun x => (s.resources ++ x.1.flatten, x.2))) := by
  induction regions with
  | nil =>
    intro s
    simp [regionsLoop, collectionDriver, Except.map]
  | cons region rest ih =>
    intro s
    have hstart : ({ s with paginationToken := [] } : LoopState σ) =
        (initialState s.service).frame s.resources s.requests s.printed := by
      simp [LoopState.frame, initialState]
    simp only [regionsLoop, collectionDriver, regionCollector, hstart, paginationLoop_frame]
    cases paginationLoop (clients region) region fuel (initialState s.service) with
    | none => rfl
    | some res =>
      cases res with
      | error e => rfl
      | ok t =>
        have := ih (t.frame s.resources s.requests s.printed)
        simp only [LoopState.frame, Option.map, Except.map] at this ⊢
        rw [this]
        cases collectionDriver clients fuel rest t.service with
        | none => rfl
        | some res' =>
          cases res' with
          | error e => rfl
          | ok x => simp [Except.map, List.append_assoc]

theorem convertResource_Region (region : Str) (item : Option ResourceTagMapping)
    (record : SingleResource) (h : convertResource region item = .ok record) :
    record.Region = some region := by
  cases item with
  | none => exact Except.noConfusion h
  | some mapping =>
    cases harn : mapping.ResourceARN with
    | none =>
      simp only [convertResource, harn] at h
      exact Except.noConfusion h
    | some arn =>
      simp only [convertResource, harn, ServiceNameFromARN_eq, bind, Except.bind] at h
      exact (ConvertArnToSingleResource_fields arn _ region record h).1

theorem appendResources_Region (region : Str) (items : List (Option ResourceTagMapping)) :
    ∀ (acc res : List SingleResource), appendResources region items acc = .ok res →
      ∀ x ∈ res, x ∈ acc ∨ x.Region = some region := by
  induction items with
  | nil =>
    intro acc res h x hx
    rw [← Except.ok.inj h] at hx
    exact Or.inl hx
  | cons item rest ih =>
    intro acc res h x hx
    simp only [appendResources, bind] at h
    cases hitem : convertResource region item with
    | error e =>
      rw [hitem] at h
      exact Except.noConfusion h
    | ok record =>
      rw [hitem] at h
      simp only [Except.bind] at h
      rcases ih _ res h x hx with hmem | hreg
      · rcases List.mem_append.mp hmem with hacc | hnew
        · exact Or.inl hacc
        · right
          rw [List.mem_singleton.mp hnew]
          exact convertResource_Region region item record hitem
      · exact Or.inr hreg

theorem callGetResources_resources {σ : Type} (r : Client σ) (s : LoopState σ)
    (inp : GetResourcesInput) : (callGetResources r s inp).2.resources = s.resources := rfl

theorem loopBody_Region {σ : Type} (r : Client σ) (region : Str) (s t : LoopState σ)
    (stop : Bool) (h : loopBody r region s = .ok (t, stop)) :
    ∀ x ∈ t.resources, x ∈ s.resources ∨ x.Region = some region := by
  unfold loopBody at h
  simp only [bind, Except.bind, pure, Except.pure] at h
  split at h
  · exact Except.noConfusion h
  · rename_i out hout
    split at h
    · exact Except.noConfusion h
    · rename_i res hres
      split at h
      · exact Except.noConfusion h
      · have ht := (Prod.mk.inj (Except.ok.inj h)).1
        rw [← ht]
        intro x hx
        have := appendResources_Region region _ _ _ hres x hx
        rw [callGetResources_resources] at this
        split at this
        · rwa [callGetResources_resources] at this
        · exact this

theorem paginationLoop_Region {σ : Type} (r : Client σ) (region : Str) :
    ∀ (fuel : Nat) (s t : LoopState σ), paginationLoop r region fuel s = some (.ok t) →
      ∀ x ∈ t.resources, x ∈ s.resources ∨ x.Region = some region := by
  intro fuel
  induction fuel with
  | zero =>
    intro s t h
    exact Option.noConfusion h
  | succ fuel ih =>
    intro s t h x hx
    simp only [paginationLoop] at h
    cases hbody : loopBody r region s with
    | error e =>
      rw [hbody] at h
      exact Except.noConfusion (Option.some.inj h)
    | ok y =>
      obtain ⟨s', stop⟩ := y
      rw [hbody] at h
      have hstep := loopBody_Region r region s s' stop hbody
      cases stop with
      | true =>
        simp only at h
        rw [← Except.ok.inj (Option.some.inj h)] at hx
        exact hstep x hx
      | false =>
        simp only at h
        rcases ih s' t h x hx with h1 | h1
        · exact hstep x h1
        · exact Or.inr h1

theorem regionCollector_Region {σ : Type} (r : Client σ) (region : Str) (fuel : Nat) (w w' : σ)
    (records : List SingleResource)
    (h : regionCollector r region fuel w = some (.ok (records, w'))) :
    ∀ x ∈ records, x.Region = some region := by
  unfold regionCollector at h
  cases hloop : paginationLoop r region fuel (initialState w) with
  | none =>
    rw [hloop] at h
    exact Option.noConfusion h
  | some res =>
    cases res with
    | error e =>
      rw [hloop] at h
      exact Except.noConfusion (Option.some.inj h)
    | ok t =>
      rw [hloop] at h
      have hrec : t.resources = records := (Prod.mk.inj (Except.ok.inj (Option.some.inj h))).1
      intro x hx
      rw [← hrec] at hx
      rcases paginationLoop_Region r region fuel (initialState w) t hloop x hx with h1 | h1
      · simp [initialState] at h1
      · exact h1

theorem collectionDriver_Region {σ : Type} (clients : Str → Client σ) (fuel : Nat)
    (regions : List Str) :
    ∀ (w w' : σ) (perRegion : List (List SingleResource)),
      collectionDriver clients fuel regions w = some (.ok (perRegion, w')) →
      List.Forall₂ (fun region records => ∀ x ∈ records, x.Region = some region)
        regions perRegion := by
  induction regions with
  | nil =>
    intro w w' perRegion h
    simp only [collectionDriver] at h
    rw [← (Prod.mk.inj (Except.ok.inj (Option.some.inj h))).1]
    exact List.Forall₂.nil
  | cons region rest ih =>
    intro w w' perRegion h
    simp only [collectionDriver] at h
    cases hreg : regionCollector (clients region) region fuel w with
    | none =>
      rw [hreg] at h
      exact Option.noConfusion h
    | some res =>
      cases res with
      | error e =>
        rw [hreg] at h
        exact Except.noConfusion (Option.some.inj h)
      | ok y =>
        obtain ⟨records, w1⟩ := y
        rw [hreg] at h
        simp only at h
        cases hrest : collectionDriver clients fuel rest w1 with
        | none =>
          rw [hrest] at h
          exact Option.noConfusion h
        | some res' =>
          cases res' with
          | error e =>
            rw [hrest] at h
            exact Except.noConfusion (Option.some.inj h)
          | ok z =>
            obtain ⟨more, w2⟩ := z
            rw [hrest] at h
            simp only at h
            rw [← (Prod.mk.inj (Except.ok.inj (Option.some.inj h))).1]
            exact List.Forall₂.cons
              (regionCollector_Region (clients region) region fuel w w1 records hreg)
              (ih w1 w2 more hrest)

theorem regionsLoop_resources {σ : Type} (clients : Str → Client σ) (fuel : Nat)
    (regions : List Str) (w : σ) :
    (regionsLoop clients fuel regions (initialState w)).map
        (Except.map (fun s => s.resources)) =
      (collectionDriver clients fuel regions w).map (Except.map (fun x => x.1.flatten)) := by
  have h := regionsLoop_eq_collectionDriver clients fuel regions (initialState w)
  cases hL : regionsLoop clients fuel regions (initialState w) with
  | none =>
    rw [hL] at h
    cases hR : collectionDriver clients fuel regions w with
    | none => rfl
    | some y =>
      rw [show (initialState w).service = w from rfl, hR] at h
      exact Option.noConfusion h
  | some x =>
    rw [hL] at h
    cases hR : collectionDriver clients fuel regions w with
    | none =>
      rw [show (initialState w).service = w from rfl, hR] at h
      exact Option.noConfusion h
    | some y =>
      rw [show (initialState w).service = w from rfl, hR] at h
      have h' := Option.some.inj h
      cases x with
      | error e =>
        cases y with
        | error e' =>
          simp only [Except.map] at h'
          simp only [Option.map, Except.map]
          rw [Except.error.inj h']
        | ok b => exact Except.noConfusion h'
      | ok a =>
        cases y with
        | error e' => exact Except.noConfusion h'
        | ok b =>
          simp only [Except.map] at h'
          have := (Prod.mk.inj (Except.ok.inj h')).1
          simp only [Option.map, Except.map, this]
          simp [initialState]

/-! ## C14: the collection driver -/

theorem regionCollector_served {σ : Type} (respond : GetResourcesInput → CallResult)
    (region : Str) (pages : List GetResourcesOutput) (records : List SingleResource)
    (fuel : Nat) (w : σ)
    (hserves : Serves respond none pages)
    (hrecords : List.Forall₂ (fun item record => convertResource region item = .ok record)
      (pages.flatMap (fun page => page.ResourceTagMappingList)) records)
    (hfuel : pages.length ≤ fuel) :
    regionCollector (statelessClient respond) region fuel w = some (.ok (records, w)) := by
  have hloop := paginationLoop_served respond region pages (initialState w)
    ((initialState w).resources ++ records) fuel (by simpa [cursorOf, initialState] using hserves)
    (appendResources_of_forall₂ region _ records _ hrecords) hfuel
  unfold regionCollector
  rw [hloop]
  simp [initialState]

theorem regionsLoop_served {σ : Type} (respond : Str → GetResourcesInput → CallResult)
    (pages : Str → List GetResourcesOutput) (records : Str → List SingleResource)
    (fuel : Nat) (regions : List Str) :
    ∀ s : LoopState σ,
      (∀ region ∈ regions, Serves (respond region) none (pages region)) →
      (∀ region ∈ regions,
        List.Forall₂ (fun item record => convertResource region item = .ok record)
          ((pages region).flatMap (fun page => page.ResourceTagMappingList))
          (records region)) →
      (∀ region ∈ regions, (pages region).length ≤ fuel) →
      ∃ s', regionsLoop (fun region => statelessClient (respond region)) fuel regions s
          = some (.ok s') ∧
        s'.resources = s.resources ++ regions.flatMap records ∧ s'.service = s.service := by
  induction regions with
  | nil =>
    intro s _ _ _
    exact ⟨s, rfl, by simp, rfl⟩
  | cons region rest ih =>
    intro s hserves hrecords hfuel
    have hloop := paginationLoop_served (respond region) region (pages region)
      ({ s with paginationToken := [] } : LoopState σ) (s.resources ++ records region) fuel
      (by simpa [cursorOf] using hserves region (List.mem_cons_self _ _))
      (appendResources_of_forall₂ region _ (records region) _
        (hrecords region (List.mem_cons_self _ _)))
      (hfuel region (List.mem_cons_self _ _))
    obtain ⟨s', hrest, hres, hsvc⟩ := ih _
      (fun r hr => hserves r (List.mem_cons_of_mem _ hr))
      (fun r hr => hrecords r (List.mem_cons_of_mem _ hr))
      (fun r hr => hfuel r (List.mem_cons_of_mem _ hr))
    refine ⟨s', ?_, ?_, ?_⟩
    · simp only [regionsLoop, hloop]
      exact hrest
    · rw [hres]
      simp [List.flatMap_cons, List.append_assoc]
    · rw [hsvc]

/-- C14, counterexample. With the regions `"eu-west-1"`, served two well-formed
pages by `twoPageMock`, and `"us-east-1"`, served one page by `malformedItemMock`
(each mock serves finitely many pages), the loop over the regions ends in the
panic of the malformed item: no sequence is handed to the presenter, not even the
records of the first region.  `main` itself, with `malformedItemMock` for its
region, ends the same way. -/
theorem regionsLoop_malformed_item_counterexample :
    Serves twoPageMock none [firstPage, lastPage] ∧
    Serves malformedItemMock none [malformedPage] ∧
    regionsLoop
        (fun region =>
          if region = "eu-west-1".toList then statelessClient twoPageMock
          else statelessClient malformedItemMock)
        2 ["eu-west-1".toList, "us-east-1".toList] (initialState ())
      = some (.error .indexOutOfRange) ∧
    main (fun _ => statelessClient malformedItemMock) 2 () = some (.error .indexOutOfRange) :=
  ⟨⟨rfl, "t1".toList, rfl, by decide, rfl, rfl⟩, ⟨rfl, rfl⟩, rfl, rfl⟩

/-- C14, amended. For every ordered list of regions, each with a mocked API whose
answer depends on the request only and that serves, without error, finitely many
pages (at least one; a non-empty cursor on all but the last, the non-nil empty
string on the last) every item of which converts without a panic: given as many
iterations as the longest page list, the loop over the regions ends normally and
the sequence handed to the presenter is the concatenation, in region-list order,
of the records of each region; these are what the Region Collector yields for the
region on its own, and every one of them carries that region in its Region
field.  For the region list of the program, that sequence is what `main` hands
over. -/
theorem regionsLoop_concatenates {σ : Type} (respond : Str → GetResourcesInput → CallResult)
    (pages : Str → List GetResourcesOutput) (records : Str → List SingleResource)
    (regions : List Str) (fuel : Nat) (w : σ)
    (hserves : ∀ region ∈ regions, Serves (respond region) none (pages region))
    (hrecords : ∀ region ∈ regions,
      List.Forall₂ (fun item record => convertResource region item = .ok record)
        ((pages region).flatMap (fun page => page.ResourceTagMappingList)) (records region))
    (hfuel : ∀ region ∈ regions, (pages region).length ≤ fuel) :
    (∃ s', regionsLoop (fun region => statelessClient (respond region)) fuel regions
        (initialState w) = some (.ok s') ∧
      s'.resources = regions.flatMap records) ∧
    (∀ region ∈ regions,
      regionCollector (statelessClient (respond region)) region fuel w
        = some (.ok (records region, w))) ∧
    (∀ region ∈ regions, ∀ x ∈ records region, x.Region = some region) ∧
    (regions = TraceableRegions →
      main (fun region => statelessClient (respond region)) fuel w
        = some (.ok (regions.flatMap records))) := by
  have hcollect : ∀ region ∈ regions,
      regionCollector (statelessClient (respond region)) region fuel w
        = some (.ok (records region, w)) :=
    fun region hmem =>
      regionCollector_served (respond region) region (pages region) (records region) fuel w
        (hserves region hmem) (hrecords region hmem) (hfuel region hmem)
  obtain ⟨s', hloop, hres, _⟩ :=
    regionsLoop_served respond pages records fuel regions (initialState w) hserves hrecords hfuel
  have hres' : s'.resources = regions.flatMap records := by
    rw [hres]
    simp [initialState]
  refine ⟨⟨s', hloop, hres'⟩, hcollect, ?_, ?_⟩
  · intro region hmem
    exact regionCollector_Region (statelessClient (respond region)) region fuel w w
      (records region) (hcollect region hmem)
  · intro hregions
    subst hregions
    simp only [main, hloop, Option.map, Except.map, hres']

theorem regionsLoop_concatenates_witness :
    (∃ s', regionsLoop (fun _ => statelessClient twoPageMock) 2
        ["eu-west-1".toList, "us-east-1".toList] (initialState ()) = some (.ok s') ∧
      s'.resources =
        [{ Region := some "eu-west-1".toList, Service := some "ec2".toList,
           Product := some "instance".toList, Details := none,
           ID := some "i-0123abc".toList, ARN := some "instance/i-0123abc".toList },
         { Region := some "eu-west-1".toList, Service := some "s3".toList,
           Product := none, Details := none,
           ID := some "bucket/my-bucket".toList, ARN := some "bucket/my-bucket".toList },
         { Region := some "us-east-1".toList, Service := some "ec2".toList,
           Product := some "instance".toList, Details := none,
           ID := some "i-0123abc".toList, ARN := some "instance/i-0123abc".toList },
         { Region := some "us-east-1".toList, Service := some "s3".toList,
           Product := none, Details := none,
           ID := some "bucket/my-bucket".toList, ARN := some "bucket/my-bucket".toList }]) ∧
    main (fun _ => statelessClient twoPageMock) 2 () =
      some (.ok
        [{ Region := some "eu-west-1".toList, Service := some "ec2".toList,
           Product := some "instance".toList, Details := none,
           ID := some "i-0123abc".toList, ARN := some "instance/i-0123abc".toList },
         { Region := some "eu-west-1".toList, Service := some "s3".toList,
           Product := none, Details := none,
           ID := some "bucket/my-bucket".toList, ARN := some "bucket/my-bucket".toList }]) :=
  ⟨(regionsLoop_concatenates (fun _ => twoPageMock) (fun _ => [firstPage, lastPage])
      (fun region =>
        [{ Region := some region, Service := some "ec2".toList,
           Product := some "instance".toList, Details := none,
           ID := some "i-0123abc".toList, ARN := some "instance/i-0123abc".toList },
         { Region := some region, Service := some "s3".toList,
           Product := none, Details := none,
           ID := some "bucket/my-bucket".toList, ARN := some "bucket/my-bucket".toList }])
      ["eu-west-1".toList, "us-east-1".toList] 2 ()
      (fun _ _ => ⟨rfl, "t1".toList, rfl, by decide, rfl, rfl⟩)
      (fun region hmem => by
        rcases List.mem_cons.mp hmem with h | h
        · subst h
          exact List.Forall₂.cons rfl (List.Forall₂.cons rfl List.Forall₂.nil)
        · rw [List.mem_singleton.mp h]
          exact List.Forall₂.cons rfl (List.Forall₂.cons rfl List.Forall₂.nil))
      (fun _ _ => Nat.le_refl 2)).1,
   (regionsLoop_concatenates (fun _ => twoPageMock) (fun _ => [firstPage, lastPage])
      (fun region =>
        [{ Region := some region, Service := some "ec2".toList,
           Product := some "instance".toList, Details := none,
           ID := some "i-0123abc".toList, ARN := some "instance/i-0123abc".toList },
         { Region := some region, Service := some "s3".toList,
           Product := none, Details := none,
           ID := some "bucket/my-bucket".toList, ARN := some "bucket/my-bucket".toList }])
      TraceableRegions 2 ()
      (fun _ _ => ⟨rfl, "t1".toList, rfl, by decide, rfl, rfl⟩)
      (fun region hmem => by
        rw [List.mem_singleton.mp hmem]
        exact List.Forall₂.cons rfl (List.Forall₂.cons rfl List.Forall₂.nil))
      (fun _ _ => Nat.le_refl 2)).2.2.2 rfl⟩

/-- What one iteration does to the traces, for any client: it issues
`firstRequests` (every request with page size 50, without cursor exactly when the
stored token is empty, and with the stored token otherwise), and it takes the
`break` exactly when the token it stores is empty. -/
theorem loopBody_requests {σ : Type} (r : Client σ) (region : Str) (s t : LoopState σ)
    (stop : Bool) (h : loopBody r region s = .ok (t, stop)) :
    t.requests = s.requests ++ firstRequests s.paginationToken ∧
    (stop = true ↔ t.paginationToken = []) ∧
    (∀ inp ∈ firstRequests s.paginationToken, inp.ResourcesPerPage = some 50 ∧
      (inp.PaginationToken = none ↔ s.paginationToken = []) ∧
      (s.paginationToken ≠ [] → inp.PaginationToken = some s.paginationToken)) := by
  refine ⟨?_, ?_, ?_⟩
  · unfold loopBody at h
    simp only [bind, Except.bind, pure, Except.pure] at h
    split at h
    · exact Except.noConfusion h
    · split at h
      · exact Except.noConfusion h
      · split at h
        · exact Except.noConfusion h
        · have ht := (Prod.mk.inj (Except.ok.inj h)).1
          rw [← ht]
          by_cases htok : s.paginationToken = []
          · simp [callGetResources, htok, firstRequests, requestFor]
          · simp [callGetResources, htok, firstRequests, requestFor]
  · unfold loopBody at h
    simp only [bind, Except.bind, pure, Except.pure] at h
    split at h
    · exact Except.noConfusion h
    · split at h
      · exact Except.noConfusion h
      · split at h
        · exact Except.noConfusion h
        · have ht := Prod.mk.inj (Except.ok.inj h)
          rw [← ht.1, ← ht.2]
          simp
  · intro inp hinp
    by_cases htok : s.paginationToken = []
    · simp only [firstRequests, htok, if_true, List.mem_cons, List.mem_singleton,
        List.not_mem_nil, or_false, or_self] at hinp
      subst hinp
      simp [requestFor, htok]
    · simp only [firstRequests, htok, if_false, List.mem_singleton] at hinp
      subst hinp
      simp [requestFor, htok]

end GoAwscli
